import Mathlib

/-! # cgroup_skb.c : HTTP header sniffer attached to cgroup ingress/egress

Shallow embedding of `pkg/receiver/servicemapreceiver/cgroup_skb.c`.

* Machine integers are natural numbers, truncated explicitly (`% 2^w`) wherever
  the C code converts to a narrower type.
* A byte buffer (`char x[n]`) is a `List Nat` of length `n` holding values below 256.
* The ring buffer `events` is the list of committed records together with the
  number of reservations attempted so far.
* The three kernel helpers the program calls are not part of the sources; what they
  do is supplied by a `Helpers` value, over which every theorem quantifies.
-/

set_option autoImplicit false

namespace CgroupSkb

/-! ## Constants -/

def TASK_CUSTOM_LEN : Nat := 32

def IP_HLEN : Nat := 20

def PACKET_HOST : Nat := 0

/-! ## Data model -/

/-- The tuple record `struct event_t`: two 16-bit ports and two 32-bit addresses. -/
structure event_t where
  sport : Nat
  dport : Nat
  saddr : Nat
  daddr : Nat
deriving DecidableEq, Repr

/-- The fragment record `struct eventPayload_t`: 32 bytes. -/
structure eventPayload_t where
  custom : List Nat
deriving DecidableEq, Repr

/-- The fields of `struct __sk_buff` the program reads, each an unsigned 32-bit value,
and the packet bytes that `bpf_skb_load_bytes` reads from (`len` of the C struct is
`data.length`). -/
structure __sk_buff where
  pkt_type : Nat
  remote_ip4 : Nat
  local_ip4 : Nat
  remote_port : Nat
  local_port : Nat
  data : List Nat
deriving DecidableEq, Repr

/-- A committed record of the ring buffer. The wire format has no tag and no length:
the two kinds differ by size. `len` of a fragment is the `len` argument of the
`ringbuf_submit_payload` call that produced it (the number of bytes copied into
`custom`); it is kept for reasoning and is not part of the 32 bytes on the wire. -/
inductive Record where
  | tuple (e : event_t)
  | fragment (ep : eventPayload_t) (len : Nat)
deriving DecidableEq, Repr

/-- The ring buffer `events`: the records committed so far, oldest first, and the
number of `bpf_ringbuf_reserve` calls made so far. -/
structure Channel where
  records : List Record
  attempts : Nat
deriving DecidableEq, Repr

/-- Modelled from the spec: the kernel helpers `bpf_skb_load_bytes`,
`bpf_ringbuf_reserve` and `bpf_ringbuf_submit` are declared in `bpf_helpers.h`, which
is not among the sources. The spec says that a read may fail when the requested
window exceeds the available packet bytes and that a reservation may fail when the
channel is at capacity. What is left open there is a field here:
* `reserve_ok n` : whether the `n`-th reservation on the channel succeeds;
* `stale n i` : byte `i` of the slot handed out by the `n`-th reservation, before
  the program writes to it;
* `fault off len i` : byte `i` of the destination buffer after a failed read of
  `len` bytes at packet offset `off`. -/
structure Helpers where
  reserve_ok : Nat → Bool
  stale : Nat → Nat → Nat
  fault : Nat → Nat → Nat → Nat

/-- Modelled from the spec: `bpf_skb_load_bytes(skb, offset, to, len)` of
`bpf_helpers.h`. Succeeds exactly when the window `offset .. offset + len - 1` lies
within the packet, and then the destination holds those bytes. The result is the
success flag and the `len` bytes of the destination after the call. -/
def bpf_skb_load_bytes (k : Helpers) (skb : __sk_buff) (offset len : Nat) : Bool × List Nat :=
  if offset + len ≤ skb.data.length then
    (true, ((skb.data.drop offset).take len).map (fun b => b % 256))
  else
    (false, (List.range len).map (fun i => k.fault offset len i % 256))

/-- Modelled from the spec: `bpf_ringbuf_reserve(&events, size, 0)` of
`bpf_helpers.h`. Counts the attempt; on success returns the `size` bytes of the
reserved slot, on failure `none` (the NULL pointer). -/
def bpf_ringbuf_reserve (k : Helpers) (ch : Channel) (size : Nat) :
    Option (List Nat) × Channel :=
  let ch1 : Channel := { ch with attempts := ch.attempts + 1 }
  if k.reserve_ok ch.attempts then
    (some ((List.range size).map (fun i => k.stale ch.attempts i % 256)), ch1)
  else
    (none, ch1)

/-- Modelled from the spec: `bpf_ringbuf_submit(rec, 0)` of `bpf_helpers.h`: the
reserved record becomes visible to the consumer, after the earlier ones. -/
def bpf_ringbuf_submit (ch : Channel) (r : Record) : Channel :=
  { ch with records := ch.records ++ [r] }

/-! ## The program -/

/-- `u16 bpf_ntohs(u16 val) { return (val << 8) | (val >> 8); }` : the argument is
converted to 16 bits, the expression is computed in `int`, the result is converted
to 16 bits. -/
def bpf_ntohs (val : Nat) : Nat :=
  let val := val % 65536
  ((val <<< 8) ||| (val >>> 8)) % 65536

/-- The copy loop of `ringbuf_submit_payload`:
`for (int i = 0; i < len; i++) ep->custom[i] = payload[i];`
with `n = len - i` iterations left. -/
def copy_loop (payload : List Nat) : Nat → Nat → List Nat → List Nat
  | 0, _, custom => custom
  | n + 1, i, custom => copy_loop payload n (i + 1) (custom.set i (payload.getD i 0))

/-- `void ringbuf_submit_payload(char *payload, u8 len)`. -/
def ringbuf_submit_payload (k : Helpers) (ch : Channel) (payload : List Nat) (len : Nat) :
    Channel :=
  match bpf_ringbuf_reserve k ch TASK_CUSTOM_LEN with
  | (none, ch1) => ch1
  | (some slot, ch1) =>
    let custom := copy_loop payload len 0 slot
    bpf_ringbuf_submit ch1 (Record.fragment { custom := custom } len)

/-- The body of `ringbuf_submit_header` between reservation and submission: the four
fields are assigned from the context, then swapped when `pkt_type == PACKET_HOST`.
`sport` and `dport` are 16-bit fields. -/
def header_event (skb : __sk_buff) : event_t :=
  let tcp_info : event_t :=
    { saddr := skb.local_ip4
      sport := skb.local_port % 65536
      daddr := skb.remote_ip4
      dport := bpf_ntohs (skb.remote_port >>> 16) }
  if skb.pkt_type = PACKET_HOST then
    -- need to swap src with dst
    let tmp32 := tcp_info.saddr
    let tcp_info := { tcp_info with saddr := tcp_info.daddr }
    let tcp_info := { tcp_info with daddr := tmp32 }
    let tmp16 := tcp_info.sport
    let tcp_info := { tcp_info with sport := tcp_info.dport }
    { tcp_info with dport := tmp16 }
  else tcp_info

/-- `void ringbuf_submit_header(struct __sk_buff *skb)`. The slot is 12 bytes and all
four fields are assigned, so its stale content does not show. -/
def ringbuf_submit_header (k : Helpers) (skb : __sk_buff) (ch : Channel) : Channel :=
  match bpf_ringbuf_reserve k ch 12 with
  | (none, ch1) => ch1
  | (some _, ch1) => bpf_ringbuf_submit ch1 (Record.tuple (header_event skb))

/-- The signature test on the 7-byte probe `p`: the four `if`s that set `haveHTTP`. -/
def haveHTTP (p : List Nat) : Nat :=
  let c := fun i => p.getD i 0
  let haveHTTP := 0
  -- HTTP
  let haveHTTP := if c 0 = 72 ∧ c 1 = 84 ∧ c 2 = 84 ∧ c 3 = 80 then 1 else haveHTTP
  -- GET
  let haveHTTP := if c 0 = 71 ∧ c 1 = 69 ∧ c 2 = 84 then 1 else haveHTTP
  -- POST
  let haveHTTP := if c 0 = 80 ∧ c 1 = 79 ∧ c 2 = 83 ∧ c 3 = 84 then 1 else haveHTTP
  -- HEAD
  let haveHTTP := if c 0 = 72 ∧ c 1 = 69 ∧ c 2 = 65 ∧ c 3 = 68 then 1 else haveHTTP
  haveHTTP

/-- The test of the inner loop at window index `idx`:
`fullbuff[idx] == CR && fullbuff[idx+1] == LF && fullbuff[idx+2] == CR && fullbuff[idx+3] == LF`. -/
def is_terminator (fullbuff : List Nat) (idx : Nat) : Bool :=
  fullbuff.getD idx 0 == 13 && fullbuff.getD (idx + 1) 0 == 10 &&
    fullbuff.getD (idx + 2) 0 == 13 && fullbuff.getD (idx + 3) 0 == 10

/-- What the inner loop leaves behind: the window, `finished` and `len`. -/
structure ScanResult where
  fullbuff : List Nat
  finished : Nat
  len : Nat
deriving DecidableEq, Repr

/-- The inner loop `for (int idx = 0; idx < TASK_CUSTOM_LEN; idx++) { if (...) { finished = 1;
fullbuff[idx+2] = 0; len = idx; break; } }`, with `n = TASK_CUSTOM_LEN - idx` iterations left. -/
def scan_chunk : Nat → Nat → ScanResult → ScanResult
  | 0, _, r => r
  | n + 1, idx, r =>
    if is_terminator r.fullbuff idx then
      { fullbuff := r.fullbuff.set (idx + 2) 0, finished := 1, len := idx }
    else scan_chunk n (idx + 1) r

/-- The variables of `dump_skb_packet` that live across iterations of the outer loop,
and the channel. -/
structure ScanState where
  fullbuff : List Nat
  finished : Nat
  cnt : Nat
  ch : Channel
deriving DecidableEq, Repr

/-- The 36-byte window an iteration scans: the 4 carry bytes `fullbuff[0..3]` followed
by the 32 bytes `bpf_skb_load_bytes` leaves in `pbuff = &fullbuff[4]`. -/
def load_window (k : Helpers) (skb : __sk_buff) (offset : Nat) (st : ScanState) : List Nat :=
  st.fullbuff.take 4 ++
    (bpf_skb_load_bytes k skb (offset + st.cnt * TASK_CUSTOM_LEN) TASK_CUSTOM_LEN).2

/-- One pass through the body of the outer loop, followed by `cnt += 1`. -/
def scan_iteration (k : Helpers) (skb : __sk_buff) (offset : Nat) (st : ScanState) : ScanState :=
  let len := TASK_CUSTOM_LEN
  let fullbuff := load_window k skb offset st
  -- see if we have reached the end of the HTTP headers block
  let r := scan_chunk TASK_CUSTOM_LEN 0 { fullbuff := fullbuff, finished := st.finished, len := len }
  let fullbuff := r.fullbuff
  let pbuff := fullbuff.drop 4
  let ch := if r.len ≠ 0 then ringbuf_submit_payload k st.ch pbuff r.len else st.ch
  -- store the last 4 bytes in the buffer's first 4 bytes
  let fullbuff := fullbuff.set 0 (pbuff.getD (TASK_CUSTOM_LEN - 4) 0)
  let pbuff := fullbuff.drop 4
  let fullbuff := fullbuff.set 1 (pbuff.getD (TASK_CUSTOM_LEN - 3) 0)
  let pbuff := fullbuff.drop 4
  let fullbuff := fullbuff.set 2 (pbuff.getD (TASK_CUSTOM_LEN - 2) 0)
  let pbuff := fullbuff.drop 4
  let fullbuff := fullbuff.set 3 (pbuff.getD (TASK_CUSTOM_LEN - 1) 0)
  { fullbuff := fullbuff, finished := r.finished, cnt := st.cnt + 1, ch := ch }

/-- The outer loop `for (int cnt = 0; cnt < 10 && !finished; cnt += 1) { ... }`, run for at
most `n` iterations. `cnt` grows by one per iteration, so from `cnt = 0` ten iterations
always reach the exit (`scan_loop_exit`). -/
def scan_loop (k : Helpers) (skb : __sk_buff) (offset : Nat) : Nat → ScanState → ScanState
  | 0, st => st
  | n + 1, st =>
    if st.cnt < 10 ∧ st.finished = 0 then
      scan_loop k skb offset n (scan_iteration k skb offset st)
    else st

/-- `normalized_port skb` is `bpf_ntohs(skb->remote_port >> 16)`. -/
def normalized_port (skb : __sk_buff) : Nat :=
  bpf_ntohs (skb.remote_port >>> 16)

/-- The payload offset: `offset = IP_HLEN; offset += 4*(tcp_data_offset>>4 & 0x0f)` where
`tcp_data_offset` is the byte read at `offset + 12`; `offset` is a `u16`. -/
def payload_offset (k : Helpers) (skb : __sk_buff) : Nat :=
  let offset := IP_HLEN
  let tcp_data_offset := (bpf_skb_load_bytes k skb (offset + 12) 1).2.getD 0 0
  (offset + 4 * ((tcp_data_offset >>> 4) &&& 0x0f)) % 65536

/-- The 7 bytes of `p` after `bpf_skb_load_bytes(skb, offset, p, 7)`. -/
def probe (k : Helpers) (skb : __sk_buff) : List Nat :=
  (bpf_skb_load_bytes k skb (payload_offset k skb) 7).2

/-- The state at the head of the outer loop: `fullbuff[0..3] = 0`, `finished = 0`,
`cnt = 0`. `fullbuff[4..35]` is not initialised by the program; it is written by the
first read before it is looked at, and stands as zeros here. -/
def scan_init (ch : Channel) : ScanState :=
  { fullbuff := [0, 0, 0, 0] ++ List.replicate TASK_CUSTOM_LEN 0, finished := 0, cnt := 0, ch := ch }

/-- The state in which the outer loop of `dump_skb_packet` ends, for a packet that
passed the port and signature tests. -/
def scan_final (k : Helpers) (skb : __sk_buff) (ch : Channel) : ScanState :=
  scan_loop k skb (payload_offset k skb) 10 (scan_init (ringbuf_submit_header k skb ch))

/-- `int dump_skb_packet(struct __sk_buff* skb)` : the return value and the channel
after the call. -/
def dump_skb_packet (k : Helpers) (skb : __sk_buff) (ch : Channel) : Int × Channel :=
  if normalized_port skb ≠ 80 then (1, ch)
  else
    if haveHTTP (probe k skb) ≠ 1 then (1, ch)
    else (1, (scan_final k skb ch).ch)

/-- `dump_egress_packets`. -/
def dump_egress_packets (k : Helpers) (skb : __sk_buff) (ch : Channel) : Int × Channel :=
  dump_skb_packet k skb ch

/-- `dump_ingress_packets`. -/
def dump_ingress_packets (k : Helpers) (skb : __sk_buff) (ch : Channel) : Int × Channel :=
  dump_skb_packet k skb ch

/-! ## Words of the specification -/

/-- The four signatures of the classifier, as ASCII bytes: `HTTP`, `GET`, `POST`, `HEAD`. -/
def signatures : List (List Nat) :=
  [[72, 84, 84, 80], [71, 69, 84], [80, 79, 83, 84], [72, 69, 65, 68]]

/-- The byte string `p` begins with the byte string `s`. -/
def begins_with (p s : List Nat) : Prop := p.take s.length = s

instance (p s : List Nat) : Decidable (begins_with p s) := by
  unfold begins_with; infer_instance

/-- The probe begins with one of the four signatures. -/
def signature_matched (p : List Nat) : Prop := ∃ s ∈ signatures, begins_with p s

/-- The byte swap of a 16-bit value, in arithmetic. -/
def swap16 (v : Nat) : Nat := (v % 256) * 256 + v / 256

/-- The fragment records among `rs`, in order, each with its length. -/
def fragments : List Record → List (List Nat × Nat)
  | [] => []
  | Record.tuple _ :: rs => fragments rs
  | Record.fragment ep len :: rs => (ep.custom, len) :: fragments rs

/-- The tuple records among `rs`, in order. -/
def tuples : List Record → List event_t
  | [] => []
  | Record.tuple e :: rs => e :: tuples rs
  | Record.fragment _ _ :: rs => tuples rs

/-- The record is a fragment record. -/
def is_fragment : Record → Bool
  | Record.tuple _ => false
  | Record.fragment _ _ => true

/-- The records are one tuple record followed only by fragment records. -/
def tuple_then_fragments : List Record → Bool
  | Record.tuple _ :: rs => rs.all is_fragment
  | _ => false

/-- The payload: the packet bytes from the computed payload offset on. -/
def payload (k : Helpers) (skb : __sk_buff) : List Nat :=
  (skb.data.drop (payload_offset k skb)).map (fun b => b % 256)

/-- The `i`-th 32-byte window of the byte string `P`. -/
def payload_window (P : List Nat) (i : Nat) : List Nat := (P.drop (32 * i)).take 32

/-- The terminator CR LF CR LF occurs in the byte string `P` at position `p`. -/
def terminator_at (P : List Nat) (p : Nat) : Prop := (P.drop p).take 4 = [13, 10, 13, 10]

instance (P : List Nat) (p : Nat) : Decidable (terminator_at P p) := by
  unfold terminator_at; infer_instance

/-- The first occurrence of the terminator in `P` is at position `p`. -/
def first_terminator_at (P : List Nat) (p : Nat) : Prop :=
  terminator_at P p ∧ ∀ q < p, ¬ terminator_at P q

/-- The records appended to the channel between `ch` and `ch1`. -/
def appended (ch ch1 : Channel) : List Record := ch1.records.drop ch.records.length

/-! ## The run of the scanner, iteration by iteration -/

/-- The 32 bytes that iteration `j` of the outer loop finds in `pbuff` after its read. -/
def chunk (k : Helpers) (skb : __sk_buff) (offset j : Nat) : List Nat :=
  (bpf_skb_load_bytes k skb (offset + j * TASK_CUSTOM_LEN) TASK_CUSTOM_LEN).2

/-- The carry bytes `fullbuff[0..3]` at the head of iteration `j`, as long as no
iteration before `j` has found the terminator: zeros at first, then `pbuff[28..31]` of
the iteration before. -/
def carry (k : Helpers) (skb : __sk_buff) (offset : Nat) : Nat → List Nat
  | 0 => [0, 0, 0, 0]
  | j + 1 =>
    [(chunk k skb offset j).getD 28 0, (chunk k skb offset j).getD 29 0,
      (chunk k skb offset j).getD 30 0, (chunk k skb offset j).getD 31 0]

/-- The 36-byte window scanned by iteration `j`, as long as no iteration before `j` has
found the terminator. -/
def window (k : Helpers) (skb : __sk_buff) (offset j : Nat) : List Nat :=
  carry k skb offset j ++ chunk k skb offset j

/-- The channel after the first `j` iterations have each submitted their whole chunk. -/
def full_frags (k : Helpers) (skb : __sk_buff) (offset : Nat) (ch : Channel) : Nat → Channel
  | 0 => ch
  | j + 1 =>
    ringbuf_submit_payload k (full_frags k skb offset ch j) (chunk k skb offset j) TASK_CUSTOM_LEN

/-- Iteration `j` sees the terminator first at window index `idx`. -/
def detects_at (k : Helpers) (skb : __sk_buff) (offset j idx : Nat) : Prop :=
  idx < TASK_CUSTOM_LEN ∧ is_terminator (window k skb offset j) idx = true ∧
    ∀ i < idx, is_terminator (window k skb offset j) i = false

/-- Iteration `j` does not see the terminator. -/
def no_detection (k : Helpers) (skb : __sk_buff) (offset j : Nat) : Prop :=
  ∀ i < TASK_CUSTOM_LEN, is_terminator (window k skb offset j) i = false

/-! ## Examples used to exercise the theorems -/

/-- Helpers with every reservation succeeding, stale slots filled with `0xAA`, and failed
reads leaving zeros. -/
def k_ok : Helpers :=
  { reserve_ok := fun _ => true, stale := fun _ _ => 170, fault := fun _ _ _ => 0 }

/-- Helpers whose first reservation fails and whose later ones succeed. -/
def k_first_full : Helpers :=
  { reserve_ok := fun n => decide (n ≠ 0), stale := fun _ _ => 170, fault := fun _ _ _ => 0 }

/-- A 20-byte IP header and a 20-byte TCP header (data offset nibble 5), otherwise zero. -/
def headers40 : List Nat := List.replicate 32 0 ++ [80] ++ List.replicate 7 0

/-- An outgoing packet to port 80 (`remote_port` holds `0x0050` in network order in its
upper half) carrying `payload` after 40 bytes of headers. -/
def mk_skb (pkt_type : Nat) (payload : List Nat) : __sk_buff :=
  { pkt_type := pkt_type, remote_ip4 := 0x0100007f, local_ip4 := 0x0200007f,
    remote_port := 0x50000000, local_port := 40000, data := headers40 ++ payload }

/-- The same packet context with another `remote_port` field. -/
def with_remote_port (skb : __sk_buff) (remote_port : Nat) : __sk_buff :=
  { skb with remote_port := remote_port }

/-- The request `GET / HTTP/1.1` CR LF CR LF followed by 30 bytes of body: the
terminator starts at payload position 14. -/
def get_request : List Nat :=
  [71, 69, 84, 32, 47, 32, 72, 84, 84, 80, 47, 49, 46, 49, 13, 10, 13, 10] ++
    List.replicate 30 66

/-- A payload that is no HTTP message: `PUT / HTTP/1.1` CR LF CR LF. -/
def put_request : List Nat :=
  [80, 85, 84, 32, 47, 32, 72, 84, 84, 80, 47, 49, 46, 49, 13, 10, 13, 10] ++
    List.replicate 30 66

/-- A request of 420 bytes whose terminator occupies the payload positions 316 to 319:
`GET `, 312 letters, CR LF CR LF, 100 letters. -/
def long_request : List Nat :=
  [71, 69, 84, 32] ++ List.replicate 312 65 ++ [13, 10, 13, 10] ++ List.replicate 100 66

/-- A request of 420 bytes without terminator. -/
def endless_request : List Nat := [71, 69, 84, 32] ++ List.replicate 416 65

/-- A request of 100 bytes whose terminator starts at payload position 30 and so
straddles the boundary between the windows 0 and 1: `GET `, 26 letters, CR LF CR LF,
66 letters. -/
def straddling_request : List Nat :=
  [71, 69, 84, 32] ++ List.replicate 26 65 ++ [13, 10, 13, 10] ++ List.replicate 66 66

/-- The empty channel. -/
def ch_empty : Channel := { records := [], attempts := 0 }


/-- The record is a fragment record whose length is between 1 and 32. -/
def fragment_len_ok : Record → Bool
  | Record.tuple _ => false
  | Record.fragment _ len => decide (1 ≤ len ∧ len ≤ 32)

/-- The same helpers with every reservation succeeding: same slots, same reads. -/
def all_ok (k : Helpers) : Helpers := { k with reserve_ok := fun _ => true }

/-- Of the records `rs`, the `i`-th of which is submitted under reservation number
`n + i`, those whose reservation succeeds. -/
def kept (ok : Nat → Bool) : Nat → List Record → List Record
  | _, [] => []
  | n, r :: rs => (if ok n then [r] else []) ++ kept ok (n + 1) rs

/-- The records the scanner submits when iteration `j` is the first to see the
terminator, at window index `idx`, or, with `j = 10`, when no iteration does: the whole
chunks of the iterations before `j`, then the first `idx` bytes of the window of
iteration `j` after the sentinel write, unless `idx = 0`. The slot of the last one is the
one handed out by reservation number `n`. -/
def submitted (k : Helpers) (skb : __sk_buff) (offset j idx n : Nat) : List Record :=
  (List.range j).map (fun i => Record.fragment { custom := chunk k skb offset i } 32) ++
    if idx ≠ 0 then
      [Record.fragment { custom := (copy_loop (((window k skb offset j).set (idx + 2) 0).drop 4)
        idx 0 ((List.range TASK_CUSTOM_LEN).map (fun i => k.stale n i % 256))) } idx]
    else []

/-- Helpers whose reservations number 0 and 2 fail and whose other ones succeed. -/
def k_gaps : Helpers :=
  { reserve_ok := fun n => decide (n ≠ 0 ∧ n ≠ 2), stale := fun _ _ => 170,
    fault := fun _ _ _ => 0 }

/-- A failed read of `len` bytes at packet offset `offset` leaves zeros in its
destination. The kernel's `bpf_skb_load_bytes` does so for every failed read: on its
error path it clears the `len` bytes of the destination before it returns. -/
def leaves_zeros (k : Helpers) (offset len : Nat) : Prop :=
  ∀ i < len, k.fault offset len i % 256 = 0

/-- Helpers whose reservations succeed and whose failed reads leave the bytes `GET / H`
followed by zeros in the destination. -/
def k_leftover : Helpers :=
  { reserve_ok := fun _ => true, stale := fun _ _ => 170,
    fault := fun _ _ i => [71, 69, 84, 32, 47, 32, 72].getD i 0 }

/-- A packet cut off after two payload bytes: 42 bytes in all. -/
def short_skb : __sk_buff := mk_skb 4 [71, 69]

/-- A request of exactly 32 bytes that ends with the terminator:
`GET / HTTP/1.1` CR LF `Host: abcdef` CR LF CR LF. -/
def aligned_request : List Nat :=
  [71, 69, 84, 32, 47, 32, 72, 84, 84, 80, 47, 49, 46, 49, 13, 10,
    72, 111, 115, 116, 58, 32, 97, 98, 99, 100, 101, 102, 13, 10, 13, 10]

/-- A request of 50 bytes without terminator: `GET ` and 46 letters. -/
def cut_request : List Nat := [71, 69, 84, 32] ++ List.replicate 46 65

/-- A request of 100 bytes whose terminator occupies the payload positions 28 to 31, the
last four bytes of window 0: `GET `, 24 letters, CR LF CR LF, 68 letters. -/
def carried_request : List Nat :=
  [71, 69, 84, 32] ++ List.replicate 24 65 ++ [13, 10, 13, 10] ++ List.replicate 68 66

/-- The record as the consumer reads it: a tuple record as it is, a fragment record cut to
the `len` bytes that were copied into it. -/
def visible : Record → Record
  | Record.tuple e => Record.tuple e
  | Record.fragment ep len => Record.fragment { custom := ep.custom.take len } len

/-- Helpers like `k_ok` whose slots hold other stale bytes and whose failed reads leave
other bytes. -/
def k_other : Helpers :=
  { reserve_ok := fun _ => true, stale := fun _ _ => 85, fault := fun _ _ _ => 255 }

/-- The request `long_request` with other bytes from packet position 410 on. -/
def long_request_other : List Nat :=
  [71, 69, 84, 32] ++ List.replicate 312 65 ++ [13, 10, 13, 10] ++ List.replicate 50 66 ++
    List.replicate 50 67

/-! ## The program with its array accesses checked

The same program, in which every step first checks that the indices it reads or writes
lie within the array concerned and that the quantities bounded by the specification are
within their bounds; a step whose check fails yields `none`. -/

/-- The test of the inner loop, reading `fullbuff[idx .. idx + 3]` with `idx < 32`. -/
def is_terminator_checked (fullbuff : List Nat) (idx : Nat) : Option Bool :=
  if idx < TASK_CUSTOM_LEN ∧ idx + 3 < fullbuff.length then some (is_terminator fullbuff idx)
  else none

/-- The inner loop, writing the sentinel to `fullbuff[idx + 2]`. -/
def scan_chunk_checked : Nat → Nat → ScanResult → Option ScanResult
  | 0, _, r => some r
  | n + 1, idx, r =>
    match is_terminator_checked r.fullbuff idx with
    | none => none
    | some true =>
      if idx + 2 < r.fullbuff.length then
        some { fullbuff := r.fullbuff.set (idx + 2) 0, finished := 1, len := idx }
      else none
    | some false => scan_chunk_checked n (idx + 1) r

/-- The copy loop, reading `payload[i]` and writing `ep->custom[i]`. -/
def copy_loop_checked (payload : List Nat) : Nat → Nat → List Nat → Option (List Nat)
  | 0, _, custom => some custom
  | n + 1, i, custom =>
    if i < payload.length ∧ i < custom.length then
      copy_loop_checked payload n (i + 1) (custom.set i (payload.getD i 0))
    else none

/-- `ringbuf_submit_payload`, called with a length between 1 and 32. -/
def ringbuf_submit_payload_checked (k : Helpers) (ch : Channel) (payload : List Nat)
    (len : Nat) : Option Channel :=
  if 1 ≤ len ∧ len ≤ TASK_CUSTOM_LEN then
    match bpf_ringbuf_reserve k ch TASK_CUSTOM_LEN with
    | (none, ch1) => some ch1
    | (some slot, ch1) =>
      match copy_loop_checked payload len 0 slot with
      | none => none
      | some custom => some (bpf_ringbuf_submit ch1 (Record.fragment { custom := custom } len))
  else none

/-- One pass through the body of the outer loop: the read offset is between 20 and 368,
the read helper writes 32 bytes at `pbuff = fullbuff + 4`, and the carry store reads
`pbuff[28 .. 31]` and writes `fullbuff[0 .. 3]`. -/
def scan_iteration_checked (k : Helpers) (skb : __sk_buff) (offset : Nat) (st : ScanState) :
    Option ScanState :=
  if 20 ≤ offset + st.cnt * TASK_CUSTOM_LEN ∧ offset + st.cnt * TASK_CUSTOM_LEN ≤ 368 ∧
      4 + TASK_CUSTOM_LEN ≤ st.fullbuff.length then
    let len := TASK_CUSTOM_LEN
    let fullbuff := load_window k skb offset st
    match scan_chunk_checked TASK_CUSTOM_LEN 0
        { fullbuff := fullbuff, finished := st.finished, len := len } with
    | none => none
    | some r =>
      let fullbuff := r.fullbuff
      let pbuff := fullbuff.drop 4
      match (if r.len ≠ 0 then ringbuf_submit_payload_checked k st.ch pbuff r.len
          else some st.ch) with
      | none => none
      | some ch =>
        if TASK_CUSTOM_LEN ≤ pbuff.length ∧ 4 ≤ fullbuff.length then
          let fullbuff := fullbuff.set 0 (pbuff.getD (TASK_CUSTOM_LEN - 4) 0)
          let pbuff := fullbuff.drop 4
          let fullbuff := fullbuff.set 1 (pbuff.getD (TASK_CUSTOM_LEN - 3) 0)
          let pbuff := fullbuff.drop 4
          let fullbuff := fullbuff.set 2 (pbuff.getD (TASK_CUSTOM_LEN - 2) 0)
          let pbuff := fullbuff.drop 4
          let fullbuff := fullbuff.set 3 (pbuff.getD (TASK_CUSTOM_LEN - 1) 0)
          some { fullbuff := fullbuff, finished := r.finished, cnt := st.cnt + 1, ch := ch }
        else none
  else none

/-- The outer loop. -/
def scan_loop_checked (k : Helpers) (skb : __sk_buff) (offset : Nat) :
    Nat → ScanState → Option ScanState
  | 0, st => some st
  | n + 1, st =>
    if st.cnt < 10 ∧ st.finished = 0 then
      match scan_iteration_checked k skb offset st with
      | none => none
      | some st1 => scan_loop_checked k skb offset n st1
    else some st

/-- `dump_skb_packet`: the byte read at offset 32 goes into a 1-byte variable, the 16-bit
`offset` does not wrap, and `p[0 .. 3]` are read from the 7-byte probe. -/
def dump_skb_packet_checked (k : Helpers) (skb : __sk_buff) (ch : Channel) :
    Option (Int × Channel) :=
  if normalized_port skb ≠ 80 then some (1, ch)
  else
    let tcp_data_offset := (bpf_skb_load_bytes k skb (IP_HLEN + 12) 1).2
    if tcp_data_offset.length = 1 ∧
        IP_HLEN + 4 * ((tcp_data_offset.getD 0 0 >>> 4) &&& 0x0f) < 65536 ∧
        3 < (probe k skb).length ∧ (probe k skb).length ≤ 7 then
      if haveHTTP (probe k skb) ≠ 1 then some (1, ch)
      else
        match scan_loop_checked k skb (payload_offset k skb) 10
            (scan_init (ringbuf_submit_header k skb ch)) with
        | none => none
        | some st => some (1, st.ch)
    else none
/-! ## Basic facts -/

theorem haveHTTP_cases (p : List Nat) : haveHTTP p = 1 ↔
    (p.getD 0 0 = 72 ∧ p.getD 1 0 = 84 ∧ p.getD 2 0 = 84 ∧ p.getD 3 0 = 80) ∨
    (p.getD 0 0 = 71 ∧ p.getD 1 0 = 69 ∧ p.getD 2 0 = 84) ∨
    (p.getD 0 0 = 80 ∧ p.getD 1 0 = 79 ∧ p.getD 2 0 = 83 ∧ p.getD 3 0 = 84) ∨
    (p.getD 0 0 = 72 ∧ p.getD 1 0 = 69 ∧ p.getD 2 0 = 65 ∧ p.getD 3 0 = 68) := by
  unfold haveHTTP
  simp only []
  split_ifs <;> simp_all

theorem signature_matched_iff (p : List Nat) : signature_matched p ↔
    (p.getD 0 0 = 72 ∧ p.getD 1 0 = 84 ∧ p.getD 2 0 = 84 ∧ p.getD 3 0 = 80) ∨
    (p.getD 0 0 = 71 ∧ p.getD 1 0 = 69 ∧ p.getD 2 0 = 84) ∨
    (p.getD 0 0 = 80 ∧ p.getD 1 0 = 79 ∧ p.getD 2 0 = 83 ∧ p.getD 3 0 = 84) ∨
    (p.getD 0 0 = 72 ∧ p.getD 1 0 = 69 ∧ p.getD 2 0 = 65 ∧ p.getD 3 0 = 68) := by
  unfold signature_matched begins_with signatures
  rcases p with _ | ⟨a, _ | ⟨b, _ | ⟨c, _ | ⟨d, t⟩⟩⟩⟩ <;> simp

theorem haveHTTP_eq_one_iff (p : List Nat) : haveHTTP p = 1 ↔ signature_matched p := by
  rw [haveHTTP_cases, signature_matched_iff]

theorem bpf_ntohs_eq_swap16 (v : Nat) (hv : v < 65536) : bpf_ntohs v = swap16 v := by
  unfold bpf_ntohs swap16
  have h1 : v % 65536 = v := Nat.mod_eq_of_lt hv
  have h2 : v / 256 < 2 ^ 8 := by norm_num; omega
  have h3 : (v <<< 8) ||| (v >>> 8) = v * 256 + v / 256 := by
    rw [Nat.shiftLeft_eq, Nat.shiftRight_eq_div_pow]
    have := Nat.mul_add_lt_is_or h2 v
    norm_num at this ⊢
    rw [Nat.mul_comm v 256]; exact this.symm
  simp only [h1, h3]
  omega

theorem dump_skb_packet_fst (k : Helpers) (skb : __sk_buff) (ch : Channel) :
    (dump_skb_packet k skb ch).1 = 1 := by
  unfold dump_skb_packet; split_ifs <;> rfl


/-! ## The outer loop as a function of the number of iterations -/

theorem scan_loop_stop (k : Helpers) (skb : __sk_buff) (offset n : Nat) (st : ScanState)
    (h : ¬ (st.cnt < 10 ∧ st.finished = 0)) : scan_loop k skb offset n st = st := by
  cases n with
  | zero => rfl
  | succ n => simp only [scan_loop, if_neg h]

theorem scan_loop_add (k : Helpers) (skb : __sk_buff) (offset a b : Nat) (st : ScanState) :
    scan_loop k skb offset (a + b) st = scan_loop k skb offset b (scan_loop k skb offset a st) := by
  induction a generalizing st with
  | zero => simp [scan_loop]
  | succ a ih =>
    rw [Nat.add_right_comm]
    by_cases h : st.cnt < 10 ∧ st.finished = 0
    · simp only [scan_loop, if_pos h]; exact ih _
    · simp only [scan_loop, if_neg h]; exact (scan_loop_stop k skb offset b st h).symm

theorem scan_loop_succ_right (k : Helpers) (skb : __sk_buff) (offset n : Nat) (st : ScanState) :
    scan_loop k skb offset (n + 1) st =
      if (scan_loop k skb offset n st).cnt < 10 ∧ (scan_loop k skb offset n st).finished = 0 then
        scan_iteration k skb offset (scan_loop k skb offset n st)
      else scan_loop k skb offset n st := by
  rw [scan_loop_add]; rfl

/-! ## The inner loop -/

theorem scan_chunk_none (n idx : Nat) (r : ScanResult)
    (h : ∀ i, idx ≤ i → i < idx + n → is_terminator r.fullbuff i = false) :
    scan_chunk n idx r = r := by
  induction n generalizing idx with
  | zero => rfl
  | succ n ih =>
    have h0 := h idx (Nat.le_refl _) (by omega)
    simp only [scan_chunk, h0]
    exact ih (idx + 1) (fun i h1 h2 => h i (by omega) (by omega))

theorem scan_chunk_found (n idx j : Nat) (r : ScanResult) (h1 : idx ≤ j) (h2 : j < idx + n)
    (hj : is_terminator r.fullbuff j = true)
    (h : ∀ i, idx ≤ i → i < j → is_terminator r.fullbuff i = false) :
    scan_chunk n idx r = { fullbuff := r.fullbuff.set (j + 2) 0, finished := 1, len := j } := by
  induction n generalizing idx with
  | zero => omega
  | succ n ih =>
    by_cases e : idx = j
    · subst e; simp only [scan_chunk, hj, if_true]
    · have h0 := h idx (Nat.le_refl _) (by omega)
      simp only [scan_chunk, h0]
      exact ih (idx + 1) (by omega) (by omega) (fun i h3 h4 => h i (by omega) h4)

/-! ## The copy loop -/

theorem copy_loop_length (payload : List Nat) (n i : Nat) (custom : List Nat) :
    (copy_loop payload n i custom).length = custom.length := by
  induction n generalizing i custom with
  | zero => rfl
  | succ n ih => simp only [copy_loop]; rw [ih]; simp

theorem copy_loop_getD (payload : List Nat) (n i : Nat) (custom : List Nat) (t : Nat) :
    (copy_loop payload n i custom).getD t 0 =
      if i ≤ t ∧ t < i + n ∧ t < custom.length then payload.getD t 0 else custom.getD t 0 := by
  induction n generalizing i custom with
  | zero => simp only [copy_loop]; rw [if_neg (by omega)]
  | succ n ih =>
    simp only [copy_loop]
    rw [ih]
    simp only [List.length_set, List.getD_eq_getElem?_getD, List.getElem?_set]
    by_cases e : i = t
    · subst e
      by_cases hl : i < custom.length
      · simp [hl]
      · have : custom[i]? = none := List.getElem?_eq_none (by omega)
        simp [hl, this]
    · simp only [e, if_false]
      by_cases c1 : i + 1 ≤ t ∧ t < i + 1 + n ∧ t < custom.length
      · rw [if_pos c1, if_pos (by omega)]
      · rw [if_neg c1, if_neg (by omega)]


/-! ## One iteration of the outer loop -/

theorem chunk_length (k : Helpers) (skb : __sk_buff) (offset j : Nat) :
    (chunk k skb offset j).length = 32 := by
  unfold chunk bpf_skb_load_bytes TASK_CUSTOM_LEN
  split_ifs with h
  · simp only [List.length_map, List.length_take, List.length_drop]; omega
  · simp

theorem carry_length (k : Helpers) (skb : __sk_buff) (offset j : Nat) :
    (carry k skb offset j).length = 4 := by
  cases j <;> rfl

theorem window_length (k : Helpers) (skb : __sk_buff) (offset j : Nat) :
    (window k skb offset j).length = 36 := by
  simp [window, carry_length, chunk_length]

theorem window_drop (k : Helpers) (skb : __sk_buff) (offset j : Nat) :
    (window k skb offset j).drop 4 = chunk k skb offset j := by
  unfold window
  rw [List.drop_append_of_le_length (by rw [carry_length])]
  rw [List.drop_of_length_le (by rw [carry_length])]
  rfl

theorem load_window_eq (k : Helpers) (skb : __sk_buff) (offset j : Nat) (st : ScanState)
    (hc : st.cnt = j) (hf : st.fullbuff.take 4 = carry k skb offset j) :
    load_window k skb offset st = window k skb offset j := by
  unfold load_window window chunk
  rw [hc, hf]

theorem list_length_four (c : List Nat) (hc : c.length = 4) :
    ∃ c0 c1 c2 c3, c = [c0, c1, c2, c3] := by
  rcases c with _ | ⟨c0, _ | ⟨c1, _ | ⟨c2, _ | ⟨c3, _ | ⟨c4, t⟩⟩⟩⟩⟩ <;> simp at hc
  exact ⟨c0, c1, c2, c3, rfl⟩

/-- An iteration that does not see the terminator submits its whole chunk, leaves
`finished` alone and stores the chunk's last four bytes as the next carry. -/
theorem scan_iteration_no_detection (k : Helpers) (skb : __sk_buff) (offset j : Nat)
    (st : ScanState) (hc : st.cnt = j) (hf : st.fullbuff.take 4 = carry k skb offset j)
    (hn : no_detection k skb offset j) :
    (scan_iteration k skb offset st).cnt = j + 1 ∧
    (scan_iteration k skb offset st).finished = st.finished ∧
    (scan_iteration k skb offset st).fullbuff.take 4 = carry k skb offset (j + 1) ∧
    (scan_iteration k skb offset st).ch =
      ringbuf_submit_payload k st.ch (chunk k skb offset j) TASK_CUSTOM_LEN := by
  have hs : ∀ r : ScanResult, r.fullbuff = window k skb offset j →
      scan_chunk TASK_CUSTOM_LEN 0 r = r := fun r hr =>
    scan_chunk_none _ _ _ (fun i _ h2 => by rw [hr]; exact hn i (by omega))
  unfold scan_iteration
  simp only [load_window_eq k skb offset j st hc hf]
  rw [hs _ rfl]
  simp only [hc, window_drop]
  refine ⟨trivial, trivial, ?_, ?_⟩
  · obtain ⟨c0, c1, c2, c3, e⟩ := list_length_four _ (carry_length k skb offset j)
    rw [window, e]
    show _ = [_, _, _, _]
    simp [TASK_CUSTOM_LEN]
  · simp [TASK_CUSTOM_LEN]

/-- An iteration that sees the terminator first at window index `idx` sets `finished`,
writes the sentinel at `idx + 2` and submits `idx` bytes of `pbuff`, unless `idx = 0`. -/
theorem scan_iteration_detection (k : Helpers) (skb : __sk_buff) (offset j idx : Nat)
    (st : ScanState) (hc : st.cnt = j) (hf : st.fullbuff.take 4 = carry k skb offset j)
    (hd : detects_at k skb offset j idx) :
    (scan_iteration k skb offset st).cnt = j + 1 ∧
    (scan_iteration k skb offset st).finished = 1 ∧
    (scan_iteration k skb offset st).ch =
      if idx ≠ 0 then
        ringbuf_submit_payload k st.ch (((window k skb offset j).set (idx + 2) 0).drop 4) idx
      else st.ch := by
  obtain ⟨h1, h2, h3⟩ := hd
  have hs : ∀ r : ScanResult, r.fullbuff = window k skb offset j →
      scan_chunk TASK_CUSTOM_LEN 0 r =
        { fullbuff := (window k skb offset j).set (idx + 2) 0, finished := 1, len := idx } :=
    fun r hr => by
      rw [← hr]
      exact scan_chunk_found _ 0 idx r (Nat.zero_le _) (by omega) (by rw [hr]; exact h2)
        (fun i _ h => by rw [hr]; exact h3 i h)
  unfold scan_iteration
  simp only [load_window_eq k skb offset j st hc hf]
  rw [hs _ rfl]
  simp only [hc]
  exact ⟨trivial, trivial, trivial⟩


/-! ## The run of the outer loop -/

/-- As long as no iteration sees the terminator, the state at the head of iteration `j`
is known. -/
theorem scan_loop_no_detection (k : Helpers) (skb : __sk_buff) (offset : Nat) (ch : Channel)
    (j : Nat) (hj : j ≤ 10) (hn : ∀ i < j, no_detection k skb offset i) :
    (scan_loop k skb offset j (scan_init ch)).cnt = j ∧
    (scan_loop k skb offset j (scan_init ch)).finished = 0 ∧
    (scan_loop k skb offset j (scan_init ch)).fullbuff.take 4 = carry k skb offset j ∧
    (scan_loop k skb offset j (scan_init ch)).ch = full_frags k skb offset ch j := by
  induction j with
  | zero => exact ⟨rfl, rfl, rfl, rfl⟩
  | succ j ih =>
    obtain ⟨h1, h2, h3, h4⟩ := ih (by omega) (fun i hi => hn i (by omega))
    rw [scan_loop_succ_right, if_pos ⟨by omega, h2⟩]
    obtain ⟨g1, g2, g3, g4⟩ :=
      scan_iteration_no_detection k skb offset j _ h1 h3 (hn j (by omega))
    refine ⟨g1, by rw [g2, h2], g3, ?_⟩
    rw [g4, h4]; rfl

/-- When no iteration sees the terminator, the loop ends after ten iterations with
`finished` unset, each iteration having submitted its whole chunk. -/
theorem scan_loop_exhausted (k : Helpers) (skb : __sk_buff) (offset : Nat) (ch : Channel)
    (hn : ∀ i < 10, no_detection k skb offset i) :
    (scan_loop k skb offset 10 (scan_init ch)).cnt = 10 ∧
    (scan_loop k skb offset 10 (scan_init ch)).finished = 0 ∧
    (scan_loop k skb offset 10 (scan_init ch)).ch = full_frags k skb offset ch 10 := by
  obtain ⟨h1, h2, _, h4⟩ := scan_loop_no_detection k skb offset ch 10 (Nat.le_refl _) hn
  exact ⟨h1, h2, h4⟩

/-- When iteration `j` is the first to see the terminator, at window index `idx`, the loop
ends after `j + 1` iterations with `finished` set. -/
theorem scan_loop_detected (k : Helpers) (skb : __sk_buff) (offset : Nat) (ch : Channel)
    (j idx : Nat) (hj : j < 10) (hn : ∀ i < j, no_detection k skb offset i)
    (hd : detects_at k skb offset j idx) :
    (scan_loop k skb offset 10 (scan_init ch)).cnt = j + 1 ∧
    (scan_loop k skb offset 10 (scan_init ch)).finished = 1 ∧
    (scan_loop k skb offset 10 (scan_init ch)).ch =
      if idx ≠ 0 then
        ringbuf_submit_payload k (full_frags k skb offset ch j)
          (((window k skb offset j).set (idx + 2) 0).drop 4) idx
      else full_frags k skb offset ch j := by
  obtain ⟨h1, h2, h3, h4⟩ := scan_loop_no_detection k skb offset ch j (by omega) hn
  obtain ⟨g1, g2, g3⟩ := scan_iteration_detection k skb offset j idx _ h1 h3 hd
  have e : 10 = (j + 1) + (9 - j) := by omega
  have hs : scan_loop k skb offset 10 (scan_init ch) =
      scan_iteration k skb offset (scan_loop k skb offset j (scan_init ch)) := by
    rw [e, scan_loop_add, scan_loop_succ_right, if_pos ⟨by omega, h2⟩]
    exact scan_loop_stop _ _ _ _ _ (by rw [g2]; simp)
  rw [hs]
  refine ⟨g1, g2, ?_⟩
  rw [g3, h4]

theorem exists_least (P : Nat → Prop) (h : ∃ n, P n) : ∃ n, P n ∧ ∀ m < n, ¬ P m := by
  classical
  exact ⟨Nat.find h, Nat.find_spec h, fun m hm => Nat.find_min h hm⟩

/-- Either no iteration sees the terminator, or there is a first one that does. -/
theorem detection_cases (k : Helpers) (skb : __sk_buff) (offset : Nat) :
    (∀ i < 10, no_detection k skb offset i) ∨
    ∃ j idx, j < 10 ∧ (∀ i < j, no_detection k skb offset i) ∧ detects_at k skb offset j idx := by
  by_cases h : ∃ j, j < 10 ∧ ¬ no_detection k skb offset j
  · right
    obtain ⟨j, ⟨hj, hnd⟩, hmin⟩ := exists_least _ h
    have h' : ∃ idx, idx < TASK_CUSTOM_LEN ∧ is_terminator (window k skb offset j) idx = true := by
      unfold no_detection at hnd
      push_neg at hnd
      obtain ⟨i, hi, hi2⟩ := hnd
      exact ⟨i, hi, eq_true_of_ne_false hi2⟩
    obtain ⟨idx, ⟨hidx, ht⟩, hmin'⟩ := exists_least _ h'
    refine ⟨j, idx, hj, ?_, hidx, ht, ?_⟩
    · intro i hi
      by_contra hc
      exact hmin i hi ⟨by omega, hc⟩
    · intro i hi
      exact eq_false_of_ne_true (fun hc => hmin' i hi ⟨lt_trans hi hidx, hc⟩)
  · left
    intro i hi
    by_contra hc
    exact h ⟨i, hi, hc⟩

/-- The outer loop always reaches its exit within ten iterations. -/
theorem scan_loop_exit (k : Helpers) (skb : __sk_buff) (offset : Nat) (ch : Channel) :
    ¬ ((scan_loop k skb offset 10 (scan_init ch)).cnt < 10 ∧
      (scan_loop k skb offset 10 (scan_init ch)).finished = 0) := by
  rcases detection_cases k skb offset with h | ⟨j, idx, hj, hn, hd⟩
  · obtain ⟨h1, _, _⟩ := scan_loop_exhausted k skb offset ch h
    omega
  · obtain ⟨_, h2, _⟩ := scan_loop_detected k skb offset ch j idx hj hn hd
    omega



/-! ## Windows and the payload -/

theorem terminator_at_iff (P : List Nat) (p : Nat) : terminator_at P p ↔
    P.getD p 0 = 13 ∧ P.getD (p + 1) 0 = 10 ∧ P.getD (p + 2) 0 = 13 ∧ P.getD (p + 3) 0 = 10 := by
  unfold terminator_at
  have h : ∀ t, P.getD (p + t) 0 = (P.drop p).getD t 0 := fun t => by
    simp [List.getElem?_drop]
  rw [← Nat.add_zero p, h 0, h 1, h 2, h 3, Nat.add_zero]
  generalize P.drop p = l
  rcases l with _ | ⟨a, _ | ⟨b, _ | ⟨c, _ | ⟨d, t⟩⟩⟩⟩ <;> simp

theorem is_terminator_iff (w : List Nat) (idx : Nat) : is_terminator w idx = true ↔
    w.getD idx 0 = 13 ∧ w.getD (idx + 1) 0 = 10 ∧ w.getD (idx + 2) 0 = 13 ∧
      w.getD (idx + 3) 0 = 10 := by
  unfold is_terminator
  simp only [Bool.and_eq_true, beq_iff_eq, and_assoc]

theorem chunk_getD (k : Helpers) (skb : __sk_buff) (offset j t : Nat)
    (hr : offset + 32 * (j + 1) ≤ skb.data.length) (ht : t < 32) :
    (chunk k skb offset j).getD t 0 =
      ((skb.data.drop offset).map (fun b => b % 256)).getD (32 * j + t) 0 := by
  unfold chunk bpf_skb_load_bytes TASK_CUSTOM_LEN
  rw [if_pos (by omega)]
  simp only [List.getD_eq_getElem?_getD, List.getElem?_map, List.getElem?_take, List.getElem?_drop,
    if_pos ht]
  have e : offset + j * 32 + t = offset + (32 * j + t) := by omega
  rw [e]

theorem chunk_eq_payload_window (k : Helpers) (skb : __sk_buff) (offset j : Nat)
    (hr : offset + 32 * (j + 1) ≤ skb.data.length) :
    chunk k skb offset j = payload_window ((skb.data.drop offset).map (fun b => b % 256)) j := by
  unfold chunk bpf_skb_load_bytes TASK_CUSTOM_LEN payload_window
  rw [if_pos (by omega)]
  simp only [List.map_take, List.map_drop, List.drop_drop]
  have e : offset + j * 32 = offset + 32 * j := by omega
  rw [e]

/-- With the reads up to iteration `j` succeeding, the window of iteration `j` is the
payload from position `32 * j - 4` on, with zeros before the payload's start. -/
theorem window_getD (k : Helpers) (skb : __sk_buff) (offset j i : Nat)
    (hr : offset + 32 * (j + 1) ≤ skb.data.length) (hi : i < 36) :
    (window k skb offset j).getD i 0 =
      if 32 * j + i < 4 then 0
      else ((skb.data.drop offset).map (fun b => b % 256)).getD (32 * j + i - 4) 0 := by
  unfold window
  by_cases h4 : i < 4
  · rw [List.getD_append _ _ _ _ (by rw [carry_length]; exact h4)]
    cases j with
    | zero =>
      rw [if_pos (by omega)]
      interval_cases i <;> rfl
    | succ j =>
      rw [if_neg (by omega)]
      have e : ∀ t, 32 * (j + 1) + t - 4 = 32 * j + (28 + t) := fun t => by omega
      rw [e]
      interval_cases i <;>
        exact chunk_getD k skb offset j _ (by omega) (by omega)
  · rw [List.getD_append_right _ _ _ _ (by rw [carry_length]; omega), carry_length,
      chunk_getD k skb offset j _ hr (by omega)]
    by_cases h0 : 32 * j + i < 4
    · omega
    · rw [if_neg h0]
      have e : 32 * j + (i - 4) = 32 * j + i - 4 := by omega
      rw [e]

/-- With the reads up to iteration `j` succeeding, iteration `j` tests at window index
`idx` exactly the payload position `32 * j + idx - 4`. -/
theorem is_terminator_window (k : Helpers) (skb : __sk_buff) (offset j idx : Nat)
    (hr : offset + 32 * (j + 1) ≤ skb.data.length) (hi : idx < 32) :
    is_terminator (window k skb offset j) idx = true ↔
      4 ≤ 32 * j + idx ∧
        terminator_at ((skb.data.drop offset).map (fun b => b % 256)) (32 * j + idx - 4) := by
  rw [is_terminator_iff, terminator_at_iff,
    window_getD k skb offset j idx hr (by omega),
    window_getD k skb offset j (idx + 1) hr (by omega),
    window_getD k skb offset j (idx + 2) hr (by omega),
    window_getD k skb offset j (idx + 3) hr (by omega)]
  by_cases h : 32 * j + idx < 4
  · rw [if_pos h]
    constructor
    · intro h'; omega
    · intro h'; omega
  · rw [if_neg h, if_neg (by omega), if_neg (by omega), if_neg (by omega)]
    have e1 : 32 * j + (idx + 1) - 4 = 32 * j + idx - 4 + 1 := by omega
    have e2 : 32 * j + (idx + 2) - 4 = 32 * j + idx - 4 + 2 := by omega
    have e3 : 32 * j + (idx + 3) - 4 = 32 * j + idx - 4 + 3 := by omega
    rw [e1, e2, e3]
    constructor
    · intro h'; exact ⟨by omega, h'⟩
    · intro h'; exact h'.2



/-! ## What the emit operations do to the channel -/

theorem ringbuf_submit_payload_ok (k : Helpers) (ch : Channel) (pl : List Nat) (len : Nat)
    (h : k.reserve_ok ch.attempts = true) :
    ringbuf_submit_payload k ch pl len =
      { records := ch.records ++ [Record.fragment
          { custom := copy_loop pl len 0
              ((List.range TASK_CUSTOM_LEN).map (fun i => k.stale ch.attempts i % 256)) } len],
        attempts := ch.attempts + 1 } := by
  simp [ringbuf_submit_payload, bpf_ringbuf_reserve, bpf_ringbuf_submit, h]

theorem ringbuf_submit_payload_full (k : Helpers) (ch : Channel) (pl : List Nat) (len : Nat)
    (h : k.reserve_ok ch.attempts = false) :
    ringbuf_submit_payload k ch pl len =
      { records := ch.records, attempts := ch.attempts + 1 } := by
  simp [ringbuf_submit_payload, bpf_ringbuf_reserve, h]

theorem ringbuf_submit_header_ok (k : Helpers) (skb : __sk_buff) (ch : Channel)
    (h : k.reserve_ok ch.attempts = true) :
    ringbuf_submit_header k skb ch =
      { records := ch.records ++ [Record.tuple (header_event skb)],
        attempts := ch.attempts + 1 } := by
  simp [ringbuf_submit_header, bpf_ringbuf_reserve, bpf_ringbuf_submit, h]

theorem ringbuf_submit_header_full (k : Helpers) (skb : __sk_buff) (ch : Channel)
    (h : k.reserve_ok ch.attempts = false) :
    ringbuf_submit_header k skb ch =
      { records := ch.records, attempts := ch.attempts + 1 } := by
  simp [ringbuf_submit_header, bpf_ringbuf_reserve, h]

theorem list_ext_getD (l1 l2 : List Nat) (hl : l1.length = l2.length)
    (h : ∀ t < l1.length, l1.getD t 0 = l2.getD t 0) : l1 = l2 := by
  apply List.ext_getElem hl
  intro t h1 h2
  have := h t h1
  rwa [List.getD_eq_getElem _ _ h1, List.getD_eq_getElem _ _ h2] at this

theorem copy_loop_full (pl slot : List Nat) (h1 : pl.length = 32) (h2 : slot.length = 32) :
    copy_loop pl TASK_CUSTOM_LEN 0 slot = pl := by
  unfold TASK_CUSTOM_LEN
  apply list_ext_getD
  · rw [copy_loop_length, h1, h2]
  · intro t ht
    rw [copy_loop_length, h2] at ht
    rw [copy_loop_getD, if_pos ⟨Nat.zero_le _, by omega, by omega⟩]

theorem slot_length (k : Helpers) (n : Nat) :
    ((List.range TASK_CUSTOM_LEN).map (fun i => k.stale n i % 256)).length = 32 := by
  simp [TASK_CUSTOM_LEN]

theorem full_frags_attempts (k : Helpers) (skb : __sk_buff) (offset : Nat) (ch : Channel)
    (j : Nat) : (full_frags k skb offset ch j).attempts = ch.attempts + j := by
  induction j with
  | zero => rfl
  | succ j ih =>
    simp only [full_frags]
    cases h : k.reserve_ok (full_frags k skb offset ch j).attempts
    · rw [ringbuf_submit_payload_full _ _ _ _ h]; simp only [ih]; omega
    · rw [ringbuf_submit_payload_ok _ _ _ _ h]; simp only [ih]; omega

/-- With every reservation succeeding, `j` iterations without detection append the
first `j` chunks, each with length 32. -/
theorem full_frags_ok (k : Helpers) (skb : __sk_buff) (offset : Nat) (ch : Channel)
    (hres : ∀ n, k.reserve_ok n = true) (j : Nat) :
    (full_frags k skb offset ch j).records =
      ch.records ++ (List.range j).map
        (fun i => Record.fragment { custom := chunk k skb offset i } 32) := by
  induction j with
  | zero => simp [full_frags]
  | succ j ih =>
    simp only [full_frags]
    rw [ringbuf_submit_payload_ok _ _ _ _ (hres _), ih, List.range_succ, List.map_append]
    simp only [List.append_assoc, List.map_cons, List.map_nil]
    rw [copy_loop_full _ _ (chunk_length k skb offset j) (slot_length k _)]
    rfl

theorem fragments_append (a b : List Record) :
    fragments (a ++ b) = fragments a ++ fragments b := by
  induction a with
  | nil => rfl
  | cons r a ih => cases r <;> simp [fragments, ih]

theorem fragments_map_fragment (f : Nat → List Nat) (g : Nat → Nat) (l : List Nat) :
    fragments (l.map (fun i => Record.fragment { custom := f i } (g i))) =
      l.map (fun i => (f i, g i)) := by
  induction l with
  | nil => rfl
  | cons a l ih => simp [fragments, ih]

theorem appended_eq (ch ch1 : Channel) (rs : List Record)
    (h : ch1.records = ch.records ++ rs) : appended ch ch1 = rs := by
  unfold appended; rw [h]; simp

/-! ## The shape of what is appended, whatever the reservations do -/

theorem ringbuf_submit_payload_shape (k : Helpers) (ch : Channel) (pl : List Nat) (len : Nat) :
    ∃ frs, frs.all is_fragment = true ∧
      (ringbuf_submit_payload k ch pl len).records = ch.records ++ frs := by
  cases h : k.reserve_ok ch.attempts
  · exact ⟨[], rfl, by rw [ringbuf_submit_payload_full _ _ _ _ h]; simp⟩
  · rw [ringbuf_submit_payload_ok _ _ _ _ h]
    exact ⟨[Record.fragment _ len], rfl, rfl⟩

theorem full_frags_shape (k : Helpers) (skb : __sk_buff) (offset : Nat) (ch : Channel)
    (j : Nat) : ∃ frs, frs.all is_fragment = true ∧
      (full_frags k skb offset ch j).records = ch.records ++ frs := by
  induction j with
  | zero => exact ⟨[], rfl, by simp [full_frags]⟩
  | succ j ih =>
    obtain ⟨f1, h1, e1⟩ := ih
    obtain ⟨f2, h2, e2⟩ := ringbuf_submit_payload_shape k (full_frags k skb offset ch j)
      (chunk k skb offset j) TASK_CUSTOM_LEN
    refine ⟨f1 ++ f2, by simp [List.all_append, h1, h2], ?_⟩
    simp only [full_frags]
    rw [e2, e1, List.append_assoc]

/-- Whatever the reads and reservations do, the scanner appends fragment records only. -/
theorem scan_loop_shape (k : Helpers) (skb : __sk_buff) (offset : Nat) (ch : Channel) :
    ∃ frs, frs.all is_fragment = true ∧
      (scan_loop k skb offset 10 (scan_init ch)).ch.records = ch.records ++ frs := by
  rcases detection_cases k skb offset with h | ⟨j, idx, hj, hn, hd⟩
  · obtain ⟨_, _, h3⟩ := scan_loop_exhausted k skb offset ch h
    rw [h3]; exact full_frags_shape k skb offset ch 10
  · obtain ⟨_, _, h3⟩ := scan_loop_detected k skb offset ch j idx hj hn hd
    rw [h3]
    obtain ⟨f1, h1, e1⟩ := full_frags_shape k skb offset ch j
    split_ifs with hi
    · obtain ⟨f2, h2, e2⟩ := ringbuf_submit_payload_shape k (full_frags k skb offset ch j)
        (((window k skb offset j).set (idx + 2) 0).drop 4) idx
      exact ⟨f1 ++ f2, by simp [List.all_append, h1, h2], by rw [e2, e1, List.append_assoc]⟩
    · exact ⟨f1, h1, e1⟩



/-! ## The emit operations count every reservation -/

theorem ringbuf_submit_payload_attempts (k : Helpers) (ch : Channel) (pl : List Nat)
    (len : Nat) : (ringbuf_submit_payload k ch pl len).attempts = ch.attempts + 1 := by
  cases h : k.reserve_ok ch.attempts
  · rw [ringbuf_submit_payload_full _ _ _ _ h]
  · rw [ringbuf_submit_payload_ok _ _ _ _ h]

theorem ringbuf_submit_header_attempts (k : Helpers) (skb : __sk_buff) (ch : Channel) :
    (ringbuf_submit_header k skb ch).attempts = ch.attempts + 1 := by
  cases h : k.reserve_ok ch.attempts
  · rw [ringbuf_submit_header_full _ _ _ h]
  · rw [ringbuf_submit_header_ok _ _ _ h]

theorem scan_loop_attempts (k : Helpers) (skb : __sk_buff) (offset : Nat) (ch : Channel) :
    ch.attempts ≤ (scan_loop k skb offset 10 (scan_init ch)).ch.attempts := by
  rcases detection_cases k skb offset with h | ⟨j, idx, hj, hn, hd⟩
  · obtain ⟨_, _, h3⟩ := scan_loop_exhausted k skb offset ch h
    rw [h3, full_frags_attempts]; omega
  · obtain ⟨_, _, h3⟩ := scan_loop_detected k skb offset ch j idx hj hn hd
    rw [h3]
    split_ifs
    · rw [ringbuf_submit_payload_attempts, full_frags_attempts]; omega
    · rw [full_frags_attempts]; omega

theorem payload_offset_eq (k : Helpers) (skb : __sk_buff) (h : 33 ≤ skb.data.length) :
    payload_offset k skb = 20 + 4 * ((skb.data.getD 32 0 % 256) / 16) := by
  have hl : (bpf_skb_load_bytes k skb (20 + 12) 1).2.getD 0 0 = skb.data.getD 32 0 % 256 := by
    unfold bpf_skb_load_bytes
    rw [if_pos (by omega)]
    simp only [List.getD_eq_getElem?_getD, List.getElem?_map, List.getElem?_take,
      List.getElem?_drop]
    rw [List.getElem?_eq_getElem (by omega)]
    simp
  have a : ∀ y : Nat, y &&& 15 = y % 16 := fun y => Nat.and_pow_two_sub_one_eq_mod y 4
  unfold payload_offset IP_HLEN
  simp only [hl]
  rw [Nat.shiftRight_eq_div_pow, a]
  omega

/-! ## Claims -/

/-- C1: when the normalized remote port `bpf_ntohs(remote_port >> 16)` is not 80,
`dump_skb_packet` attempts no reservation and appends no record: the channel after the
call is the channel before it. -/
theorem C1_port_filter (k : Helpers) (skb : __sk_buff) (ch : Channel)
    (h : bpf_ntohs (skb.remote_port >>> 16) ≠ 80) :
    (dump_skb_packet k skb ch).2 = ch ∧
    (dump_skb_packet k skb ch).2.attempts = ch.attempts ∧
    appended ch (dump_skb_packet k skb ch).2 = [] := by
  have e : (dump_skb_packet k skb ch).2 = ch := by
    unfold dump_skb_packet normalized_port
    rw [if_pos h]
  rw [e]
  exact ⟨rfl, rfl, by simp [appended]⟩

theorem C1_port_filter_witness :
    bpf_ntohs ((with_remote_port (mk_skb 4 get_request) 0xbb010000).remote_port >>> 16) = 443 ∧
    (dump_skb_packet k_ok (with_remote_port (mk_skb 4 get_request) 0xbb010000) ch_empty).2 =
      ch_empty :=
  ⟨by decide,
    (C1_port_filter k_ok (with_remote_port (mk_skb 4 get_request) 0xbb010000) ch_empty
      (by decide)).1⟩

/-- C2: for a packet to port 80, the probe is the 7 bytes read at offset
`20 + 4 * (high nibble of packet byte 32)`; when the probe begins with none of `HTTP`,
`GET`, `POST`, `HEAD`, the channel after `dump_skb_packet` is the channel before it;
when it begins with one of them the packet is accepted, whatever its other bytes are:
`haveHTTP` is 1, the tuple reservation is attempted and the scanner runs. -/
theorem C2_signature_filter (k : Helpers) (skb : __sk_buff) (ch : Channel)
    (hport : bpf_ntohs (skb.remote_port >>> 16) = 80) :
    (33 ≤ skb.data.length →
      payload_offset k skb = 20 + 4 * ((skb.data.getD 32 0 % 256) / 16)) ∧
    (payload_offset k skb + 7 ≤ skb.data.length → probe k skb = (payload k skb).take 7) ∧
    (¬ signature_matched (probe k skb) → (dump_skb_packet k skb ch).2 = ch) ∧
    (signature_matched (probe k skb) →
      haveHTTP (probe k skb) = 1 ∧
      (dump_skb_packet k skb ch).2 = (scan_final k skb ch).ch ∧
      ch.attempts < (dump_skb_packet k skb ch).2.attempts) := by
  refine ⟨payload_offset_eq k skb, ?_, ?_, ?_⟩
  · intro h
    unfold probe payload bpf_skb_load_bytes
    rw [if_pos h, List.map_take]
  · intro h
    have hh : haveHTTP (probe k skb) ≠ 1 := fun e => h ((haveHTTP_eq_one_iff _).mp e)
    unfold dump_skb_packet normalized_port
    rw [if_neg (by rw [hport]; simp), if_pos hh]
  · intro h
    have hh : haveHTTP (probe k skb) = 1 := (haveHTTP_eq_one_iff _).mpr h
    have e : (dump_skb_packet k skb ch).2 = (scan_final k skb ch).ch := by
      unfold dump_skb_packet normalized_port
      rw [if_neg (by rw [hport]; simp), if_neg (by rw [hh]; simp)]
    refine ⟨hh, e, ?_⟩
    rw [e]
    have := scan_loop_attempts k skb (payload_offset k skb) (ringbuf_submit_header k skb ch)
    rw [ringbuf_submit_header_attempts] at this
    unfold scan_final
    omega

set_option maxRecDepth 100000 in
theorem C2_signature_filter_witness :
    (bpf_ntohs ((mk_skb 4 put_request).remote_port >>> 16) = 80 ∧
      ¬ signature_matched (probe k_ok (mk_skb 4 put_request)) ∧
      (dump_skb_packet k_ok (mk_skb 4 put_request) ch_empty).2 = ch_empty) ∧
    (bpf_ntohs ((mk_skb 4 get_request).remote_port >>> 16) = 80 ∧
      payload_offset k_ok (mk_skb 4 get_request) = 40 ∧
      probe k_ok (mk_skb 4 get_request) = [71, 69, 84, 32, 47, 32, 72] ∧
      haveHTTP (probe k_ok (mk_skb 4 get_request)) = 1 ∧
      ch_empty.attempts < (dump_skb_packet k_ok (mk_skb 4 get_request) ch_empty).2.attempts) := by
  have hp : ¬ signature_matched (probe k_ok (mk_skb 4 put_request)) := by
    rw [← haveHTTP_eq_one_iff]; decide
  have hg : signature_matched (probe k_ok (mk_skb 4 get_request)) := by
    rw [← haveHTTP_eq_one_iff]; decide
  have h1 := C2_signature_filter k_ok (mk_skb 4 put_request) ch_empty (by decide)
  have h2 := C2_signature_filter k_ok (mk_skb 4 get_request) ch_empty (by decide)
  refine ⟨⟨by decide, hp, h1.2.2.1 hp⟩, by decide, ?_, ?_, (h2.2.2.2 hg).1, (h2.2.2.2 hg).2.2⟩
  · rw [h2.1 (by decide)]; decide
  · rw [h2.2.1 (by decide)]; decide



/-- C3, as the code has it: for every matched packet and every outcome of the
reservations, the records `dump_skb_packet` appends are the tuple record, present
exactly when its reservation (the first of the call) succeeds, followed only by
fragment records. When the tuple reservation succeeds the appended records are one
tuple record followed only by fragment records. -/
theorem C3_tuple_before_fragments (k : Helpers) (skb : __sk_buff) (ch : Channel)
    (hport : bpf_ntohs (skb.remote_port >>> 16) = 80) (hsig : haveHTTP (probe k skb) = 1) :
    (∃ frs, frs.all is_fragment = true ∧
      appended ch (dump_skb_packet k skb ch).2 =
        (if k.reserve_ok ch.attempts then [Record.tuple (header_event skb)] else []) ++ frs) ∧
    (k.reserve_ok ch.attempts = true →
      tuple_then_fragments (appended ch (dump_skb_packet k skb ch).2) = true) := by
  have e : (dump_skb_packet k skb ch).2 = (scan_final k skb ch).ch := by
    unfold dump_skb_packet normalized_port
    rw [if_neg (by rw [hport]; simp), if_neg (by rw [hsig]; simp)]
  obtain ⟨frs, hf, hr⟩ :=
    scan_loop_shape k skb (payload_offset k skb) (ringbuf_submit_header k skb ch)
  have key : appended ch (dump_skb_packet k skb ch).2 =
      (if k.reserve_ok ch.attempts then [Record.tuple (header_event skb)] else []) ++ frs := by
    apply appended_eq
    rw [e]
    unfold scan_final
    rw [hr]
    cases h : k.reserve_ok ch.attempts
    · rw [ringbuf_submit_header_full _ _ _ h]; simp
    · rw [ringbuf_submit_header_ok _ _ _ h]; simp
  refine ⟨⟨frs, hf, key⟩, ?_⟩
  intro h
  rw [key, h]
  simpa [tuple_then_fragments] using hf

set_option maxRecDepth 100000 in
theorem C3_tuple_before_fragments_witness :
    appended ch_empty (dump_skb_packet k_ok (mk_skb 4 get_request) ch_empty).2 =
      [Record.tuple { sport := 40000, dport := 80, saddr := 0x0200007f, daddr := 0x0100007f },
        Record.fragment { custom :=
          [71, 69, 84, 32, 47, 32, 72, 84, 84, 80, 47, 49, 46, 49, 13, 10, 0, 10, 170, 170,
            170, 170, 170, 170, 170, 170, 170, 170, 170, 170, 170, 170] } 18] ∧
    tuple_then_fragments
      (appended ch_empty (dump_skb_packet k_ok (mk_skb 4 get_request) ch_empty).2) = true :=
  ⟨by decide,
    (C3_tuple_before_fragments k_ok (mk_skb 4 get_request) ch_empty (by decide) (by decide)).2
      (by decide)⟩

set_option maxRecDepth 100000 in
/-- C3 as stated fails: a matched packet whose tuple reservation fails and whose
fragment reservation succeeds leaves a fragment record in the channel with no tuple
record before it. -/
theorem C3_counterexample :
    bpf_ntohs ((mk_skb 4 get_request).remote_port >>> 16) = 80 ∧
    haveHTTP (probe k_first_full (mk_skb 4 get_request)) = 1 ∧
    tuples (appended ch_empty
      (dump_skb_packet k_first_full (mk_skb 4 get_request) ch_empty).2) = [] ∧
    fragments (appended ch_empty
      (dump_skb_packet k_first_full (mk_skb 4 get_request) ch_empty).2) =
        [([71, 69, 84, 32, 47, 32, 72, 84, 84, 80, 47, 49, 46, 49, 13, 10, 0, 10, 170, 170,
            170, 170, 170, 170, 170, 170, 170, 170, 170, 170, 170, 170], 18)] ∧
    tuple_then_fragments (appended ch_empty
      (dump_skb_packet k_first_full (mk_skb 4 get_request) ch_empty).2) = false := by
  decide

/-- C9: two packet contexts that differ only in `pkt_type`, one `PACKET_HOST` and the
other not, with the tuple reservation succeeding for both, get tuple records that are
swaps of each other: `saddr` of one is `daddr` of the other and `sport` of one is
`dport` of the other, both ways. -/
theorem C9_direction_swap (k1 k2 : Helpers) (skb1 skb2 : __sk_buff) (ch1 ch2 : Channel)
    (h1 : skb1.pkt_type = PACKET_HOST) (h2 : skb2.pkt_type ≠ PACKET_HOST)
    (hra : skb1.remote_ip4 = skb2.remote_ip4) (hla : skb1.local_ip4 = skb2.local_ip4)
    (hrp : skb1.remote_port = skb2.remote_port) (hlp : skb1.local_port = skb2.local_port)
    (_hd : skb1.data = skb2.data)
    (hr1 : k1.reserve_ok ch1.attempts = true) (hr2 : k2.reserve_ok ch2.attempts = true) :
    ∃ e1 e2,
      appended ch1 (ringbuf_submit_header k1 skb1 ch1) = [Record.tuple e1] ∧
      appended ch2 (ringbuf_submit_header k2 skb2 ch2) = [Record.tuple e2] ∧
      e1.saddr = e2.daddr ∧ e1.sport = e2.dport ∧ e1.daddr = e2.saddr ∧ e1.dport = e2.sport := by
  refine ⟨header_event skb1, header_event skb2,
    appended_eq _ _ _ (by rw [ringbuf_submit_header_ok _ _ _ hr1]),
    appended_eq _ _ _ (by rw [ringbuf_submit_header_ok _ _ _ hr2]), ?_⟩
  unfold header_event
  rw [if_pos h1, if_neg h2]
  simp only [hra, hla, hrp, hlp]
  exact ⟨trivial, trivial, trivial, trivial⟩

theorem C9_direction_swap_witness :
    ∃ e1 e2,
      appended ch_empty (ringbuf_submit_header k_ok (mk_skb 0 get_request) ch_empty) =
        [Record.tuple e1] ∧
      appended ch_empty (ringbuf_submit_header k_ok (mk_skb 4 get_request) ch_empty) =
        [Record.tuple e2] ∧
      e1.saddr = e2.daddr ∧ e1.sport = e2.dport ∧ e1.daddr = e2.saddr ∧ e1.dport = e2.sport :=
  C9_direction_swap k_ok k_ok (mk_skb 0 get_request) (mk_skb 4 get_request) ch_empty ch_empty
    rfl (by decide) rfl rfl rfl rfl rfl rfl rfl

/-- C10: for a packet context with `pkt_type` different from `PACKET_HOST` and a
successful reservation, `ringbuf_submit_header` appends the tuple with
`saddr = local_ip4`, `sport = local_port mod 2^16`, `daddr = remote_ip4` and `dport` the
byte swap of the upper 16 bits of `remote_port`; and `bpf_ntohs v` is
`(v mod 256) * 256 + v / 256` for every 16-bit `v`, hence its own inverse. -/
theorem C10_tuple_fields (k : Helpers) (skb : __sk_buff) (ch : Channel)
    (hp : skb.pkt_type ≠ PACKET_HOST) (hr : k.reserve_ok ch.attempts = true) :
    ringbuf_submit_header k skb ch =
      { records := ch.records ++ [Record.tuple
          { saddr := skb.local_ip4, sport := skb.local_port % 65536,
            daddr := skb.remote_ip4,
            dport := swap16 (skb.remote_port / 65536 % 65536) }],
        attempts := ch.attempts + 1 } ∧
    (∀ v, v < 65536 → bpf_ntohs v = (v % 256) * 256 + v / 256) ∧
    (∀ v, v < 65536 → bpf_ntohs (bpf_ntohs v) = v) := by
  have hs : ∀ v, v < 65536 → bpf_ntohs v = (v % 256) * 256 + v / 256 := fun v hv =>
    bpf_ntohs_eq_swap16 v hv
  have hm : ∀ v, bpf_ntohs v = bpf_ntohs (v % 65536) := fun v => by
    unfold bpf_ntohs; simp
  have hq : bpf_ntohs (skb.remote_port >>> 16) = swap16 (skb.remote_port / 65536 % 65536) := by
    rw [Nat.shiftRight_eq_div_pow, hm]
    exact bpf_ntohs_eq_swap16 _ (Nat.mod_lt _ (by norm_num))
  refine ⟨?_, hs, ?_⟩
  · rw [ringbuf_submit_header_ok _ _ _ hr]
    unfold header_event
    rw [if_neg hp, hq]
  · intro v hv
    have hb : (v % 256) * 256 + v / 256 < 65536 := by omega
    rw [hs v hv, hs _ hb]
    omega

theorem C10_tuple_fields_witness :
    ringbuf_submit_header k_ok (mk_skb 4 get_request) ch_empty =
      { records := [Record.tuple
          { saddr := 0x0200007f, sport := 40000, daddr := 0x0100007f, dport := 80 }],
        attempts := 1 } :=
  (C10_tuple_fields k_ok (mk_skb 4 get_request) ch_empty (by decide) rfl).1



/-! ## The run on a packet whose reads succeed -/

theorem no_detection_of_payload (k : Helpers) (skb : __sk_buff) (offset j : Nat)
    (hr : offset + 32 * (j + 1) ≤ skb.data.length)
    (hn : ∀ p, 32 * j ≤ p + 4 → p + 4 < 32 * (j + 1) →
      ¬ terminator_at ((skb.data.drop offset).map (fun b => b % 256)) p) :
    no_detection k skb offset j := by
  intro i hi
  apply eq_false_of_ne_true
  intro h
  unfold TASK_CUSTOM_LEN at hi
  obtain ⟨h4, ht⟩ := (is_terminator_window k skb offset j i hr hi).mp h
  exact hn _ (by omega) (by omega) ht

theorem detects_at_of_payload (k : Helpers) (skb : __sk_buff) (offset p : Nat)
    (hr : offset + 32 * ((p + 4) / 32 + 1) ≤ skb.data.length)
    (hp : first_terminator_at ((skb.data.drop offset).map (fun b => b % 256)) p) :
    detects_at k skb offset ((p + 4) / 32) ((p + 4) % 32) := by
  have hlt : (p + 4) % 32 < 32 := Nat.mod_lt _ (by norm_num)
  refine ⟨hlt, ?_, ?_⟩
  · rw [is_terminator_window k skb offset _ _ hr hlt]
    have e : 32 * ((p + 4) / 32) + (p + 4) % 32 - 4 = p := by omega
    rw [e]
    exact ⟨by omega, hp.1⟩
  · intro i hi
    apply eq_false_of_ne_true
    intro h
    obtain ⟨h4, ht⟩ := (is_terminator_window k skb offset _ i hr (by omega)).mp h
    exact hp.2 _ (by omega) ht

theorem no_detection_before (k : Helpers) (skb : __sk_buff) (offset p : Nat)
    (hr : offset + 32 * ((p + 4) / 32 + 1) ≤ skb.data.length)
    (hp : first_terminator_at ((skb.data.drop offset).map (fun b => b % 256)) p) :
    ∀ i < (p + 4) / 32, no_detection k skb offset i := by
  intro i hi
  apply no_detection_of_payload k skb offset i (by omega)
  intro q h1 h2
  exact hp.2 q (by omega)

theorem dump_skb_packet_matched (k : Helpers) (skb : __sk_buff) (ch : Channel)
    (hport : bpf_ntohs (skb.remote_port >>> 16) = 80) (hsig : haveHTTP (probe k skb) = 1) :
    (dump_skb_packet k skb ch).2 = (scan_final k skb ch).ch := by
  unfold dump_skb_packet normalized_port
  rw [if_neg (by rw [hport]; simp), if_neg (by rw [hsig]; simp)]

/-- C6: for a matched packet whose first 320 payload bytes hold no CR LF CR LF, with
all reads and reservations succeeding, `dump_skb_packet` emits exactly 10 fragment
records, each of length 32, the `i`-th holding the payload bytes `32*i .. 32*i+31`,
and the scan ends after its ten iterations with `finished` never set. -/
theorem C6_exhaustion (k : Helpers) (skb : __sk_buff) (ch : Channel)
    (hport : bpf_ntohs (skb.remote_port >>> 16) = 80) (hsig : haveHTTP (probe k skb) = 1)
    (hres : ∀ n, k.reserve_ok n = true)
    (hread : payload_offset k skb + 320 ≤ skb.data.length)
    (hno : ∀ p, p + 4 ≤ 320 → ¬ terminator_at (payload k skb) p) :
    fragments (appended ch (dump_skb_packet k skb ch).2) =
      (List.range 10).map (fun i => (payload_window (payload k skb) i, 32)) ∧
    (∀ j ≤ 10, (scan_loop k skb (payload_offset k skb) j
      (scan_init (ringbuf_submit_header k skb ch))).finished = 0) ∧
    (scan_final k skb ch).finished = 0 ∧ (scan_final k skb ch).cnt = 10 := by
  have hn : ∀ i < 10, no_detection k skb (payload_offset k skb) i := fun i hi =>
    no_detection_of_payload k skb _ i (by omega)
      (fun p h1 h2 => hno p (by omega))
  obtain ⟨h1, h2, h3⟩ := scan_loop_exhausted k skb (payload_offset k skb)
    (ringbuf_submit_header k skb ch) hn
  refine ⟨?_, ?_, h2, h1⟩
  · rw [dump_skb_packet_matched k skb ch hport hsig]
    unfold scan_final
    rw [appended_eq ch _ ([Record.tuple (header_event skb)] ++ (List.range 10).map
      (fun i => Record.fragment { custom := chunk k skb (payload_offset k skb) i } 32))
      (by rw [h3, full_frags_ok k skb _ _ hres, ringbuf_submit_header_ok _ _ _ (hres _),
        List.append_assoc])]
    rw [fragments_append, fragments_map_fragment]
    simp only [fragments, List.nil_append]
    apply List.map_congr_left
    intro i hi
    rw [List.mem_range] at hi
    rw [chunk_eq_payload_window k skb _ i (by omega)]
    rfl
  · intro j hj
    exact (scan_loop_no_detection k skb _ _ j hj (fun i hi => hn i (by omega))).2.1

set_option maxRecDepth 100000 in
theorem C6_exhaustion_witness :
    (fragments (appended ch_empty
      (dump_skb_packet k_ok (mk_skb 4 endless_request) ch_empty).2)).length = 10 ∧
    (scan_final k_ok (mk_skb 4 endless_request) ch_empty).finished = 0 := by
  have hall : ∀ p < 317, ¬ terminator_at (payload k_ok (mk_skb 4 endless_request)) p := by
    decide
  have h := C6_exhaustion k_ok (mk_skb 4 endless_request) ch_empty (by decide) (by decide)
    (fun _ => rfl) (by decide) (fun p hp => hall p (by omega))
  exact ⟨by rw [h.1]; rfl, h.2.2.1⟩



/-- C7, as the code has it: for a matched packet whose payload holds CR LF CR LF at a
position `p ≤ 315` (the terminator lies within the first 319 payload bytes), with the
reads of every iteration that runs succeeding, the scanner sets `finished` within its
ten iterations, no later than iteration `(p + 4) / 32`, and stops on it. -/
theorem C7_terminator_found (k : Helpers) (skb : __sk_buff) (ch : Channel)
    (hport : bpf_ntohs (skb.remote_port >>> 16) = 80) (hsig : haveHTTP (probe k skb) = 1)
    (p : Nat) (hp : terminator_at (payload k skb) p) (hp315 : p ≤ 315)
    (hread : payload_offset k skb + 32 * (scan_final k skb ch).cnt ≤ skb.data.length) :
    (dump_skb_packet k skb ch).2 = (scan_final k skb ch).ch ∧
    (scan_final k skb ch).finished = 1 ∧
    (scan_final k skb ch).cnt ≤ (p + 4) / 32 + 1 ∧
    (scan_final k skb ch).cnt ≤ 10 := by
  have hdet : ∀ j, (p + 4) / 32 ≤ j →
      payload_offset k skb + 32 * (j + 1) ≤ skb.data.length →
      ¬ no_detection k skb (payload_offset k skb) ((p + 4) / 32) := by
    intro j hj hr hn
    have hlt : (p + 4) % 32 < 32 := Nat.mod_lt _ (by norm_num)
    have ht := (is_terminator_window k skb (payload_offset k skb) ((p + 4) / 32)
      ((p + 4) % 32) (by omega) hlt).mpr ⟨by omega, by
        have e : 32 * ((p + 4) / 32) + (p + 4) % 32 - 4 = p := by omega
        rw [e]; exact hp⟩
    rw [hn _ hlt] at ht
    exact Bool.false_ne_true ht
  refine ⟨dump_skb_packet_matched k skb ch hport hsig, ?_⟩
  unfold scan_final at hread ⊢
  rcases detection_cases k skb (payload_offset k skb) with h | ⟨j, idx, hj, hn, hd⟩
  · obtain ⟨h1, _, _⟩ := scan_loop_exhausted k skb (payload_offset k skb)
      (ringbuf_submit_header k skb ch) h
    rw [h1] at hread
    exact absurd (h _ (by omega)) (hdet 9 (by omega) (by omega))
  · obtain ⟨h1, h2, _⟩ := scan_loop_detected k skb (payload_offset k skb)
      (ringbuf_submit_header k skb ch) j idx hj hn hd
    rw [h1] at hread
    rw [h1, h2]
    refine ⟨rfl, ?_, by omega⟩
    by_contra hc
    exact hdet j (by omega) hread (hn _ (by omega))

set_option maxRecDepth 100000 in
theorem C7_terminator_found_witness :
    terminator_at (payload k_ok (mk_skb 4 get_request)) 14 ∧
    (scan_final k_ok (mk_skb 4 get_request) ch_empty).finished = 1 ∧
    (scan_final k_ok (mk_skb 4 get_request) ch_empty).cnt ≤ 1 :=
  ⟨by decide,
    (C7_terminator_found k_ok (mk_skb 4 get_request) ch_empty (by decide) (by decide) 14
      (by decide) (by decide) (by decide)).2.1,
    (C7_terminator_found k_ok (mk_skb 4 get_request) ch_empty (by decide) (by decide) 14
      (by decide) (by decide) (by decide)).2.2.1⟩

set_option maxRecDepth 100000 in
/-- C7 as stated fails: a terminator at payload positions 316 to 319 lies entirely
within the first 320 payload bytes, every read succeeds, and the scanner runs its ten
iterations without setting `finished`. -/
theorem C7_counterexample :
    bpf_ntohs ((mk_skb 4 long_request).remote_port >>> 16) = 80 ∧
    haveHTTP (probe k_ok (mk_skb 4 long_request)) = 1 ∧
    terminator_at (payload k_ok (mk_skb 4 long_request)) 316 ∧
    316 + 4 ≤ 320 ∧
    payload_offset k_ok (mk_skb 4 long_request) + 320 ≤ (mk_skb 4 long_request).data.length ∧
    (scan_final k_ok (mk_skb 4 long_request) ch_empty).finished = 0 ∧
    (scan_final k_ok (mk_skb 4 long_request) ch_empty).cnt = 10 := by
  decide



theorem drop_28 (l : List Nat) (h : l.length = 32) :
    l.drop 28 = [l.getD 28 0, l.getD 29 0, l.getD 30 0, l.getD 31 0] := by
  apply list_ext_getD
  · simp [h]
  · intro t ht
    have ht' : t < 4 := by simpa [h] using ht
    simp only [List.getD_eq_getElem?_getD, List.getElem?_drop]
    interval_cases t <;> rfl

theorem fragments_tuple (e : event_t) : fragments [Record.tuple e] = [] := rfl

theorem fragments_fragment (ep : eventPayload_t) (len : Nat) :
    fragments [Record.fragment ep len] = [(ep.custom, len)] := rfl

/-- With every reservation succeeding, a run whose first detection is in iteration `j`
at window index `idx` appends the whole chunks of the iterations before `j` and then,
unless `idx = 0`, one fragment of length `idx`. -/
theorem detected_fragments (k : Helpers) (skb : __sk_buff) (ch : Channel) (j idx : Nat)
    (hport : bpf_ntohs (skb.remote_port >>> 16) = 80) (hsig : haveHTTP (probe k skb) = 1)
    (hres : ∀ n, k.reserve_ok n = true) (hj : j < 10)
    (hn : ∀ i < j, no_detection k skb (payload_offset k skb) i)
    (hd : detects_at k skb (payload_offset k skb) j idx) :
    fragments (appended ch (dump_skb_packet k skb ch).2) =
      (List.range j).map (fun i => (chunk k skb (payload_offset k skb) i, 32)) ++
        if idx ≠ 0 then
          [(copy_loop (((window k skb (payload_offset k skb) j).set (idx + 2) 0).drop 4) idx 0
            ((List.range TASK_CUSTOM_LEN).map
              (fun i => k.stale (ch.attempts + 1 + j) i % 256)), idx)]
        else [] := by
  obtain ⟨_, _, h3⟩ := scan_loop_detected k skb (payload_offset k skb)
    (ringbuf_submit_header k skb ch) j idx hj hn hd
  have hh := ringbuf_submit_header_ok k skb ch (hres _)
  have hrec : (full_frags k skb (payload_offset k skb) (ringbuf_submit_header k skb ch) j).records =
      ch.records ++ ([Record.tuple (header_event skb)] ++ (List.range j).map
        (fun i => Record.fragment { custom := chunk k skb (payload_offset k skb) i } 32)) := by
    rw [full_frags_ok k skb (payload_offset k skb) _ hres j, hh, List.append_assoc]
  have hatt : (full_frags k skb (payload_offset k skb) (ringbuf_submit_header k skb ch) j).attempts =
      ch.attempts + 1 + j := by
    rw [full_frags_attempts, hh]
  rw [dump_skb_packet_matched k skb ch hport hsig]
  unfold scan_final
  rw [h3]
  by_cases hi : idx ≠ 0
  · rw [if_pos hi, if_pos hi, ringbuf_submit_payload_ok _ _ _ _ (hres _), hatt]
    rw [appended_eq ch _ (([Record.tuple (header_event skb)] ++ (List.range j).map
        (fun i => Record.fragment { custom := chunk k skb (payload_offset k skb) i } 32)) ++
        [Record.fragment { custom := (copy_loop
          (((window k skb (payload_offset k skb) j).set (idx + 2) 0).drop 4) idx 0
          ((List.range TASK_CUSTOM_LEN).map (fun i => k.stale (ch.attempts + 1 + j) i % 256))) }
          idx])
      (by simp only [hrec, List.append_assoc])]
    simp only [fragments_append, fragments_map_fragment, fragments_tuple, fragments_fragment,
      List.nil_append]
  · rw [if_neg hi, if_neg hi]
    rw [appended_eq ch _ _ hrec]
    simp only [fragments_append, fragments_map_fragment, fragments_tuple, List.nil_append,
      List.append_nil]

/-- C5: for a matched packet whose first CR LF CR LF starts at payload position
`32*kk + r` with `kk ≤ 8` and `r` one of 29, 30, 31, with the reads and reservations
succeeding: no iteration up to `kk` sets `finished`; iteration `kk + 1`, whose carry is
the last four bytes of window `kk`, finds the terminator at window index `r - 28`,
inside the carry; it emits a fragment of length `r - 28` and the loop stops after
`kk + 2` iterations, having emitted `kk + 2` fragments, the detecting one last. -/
theorem C5_straddling_terminator (k : Helpers) (skb : __sk_buff) (ch : Channel)
    (hport : bpf_ntohs (skb.remote_port >>> 16) = 80) (hsig : haveHTTP (probe k skb) = 1)
    (hres : ∀ n, k.reserve_ok n = true) (kk r : Nat) (hk : kk ≤ 8)
    (hr : r = 29 ∨ r = 30 ∨ r = 31)
    (hp : first_terminator_at (payload k skb) (32 * kk + r))
    (hread : payload_offset k skb + 32 * (kk + 2) ≤ skb.data.length) :
    (∀ j ≤ kk + 1,
      (scan_loop k skb (payload_offset k skb) j
        (scan_init (ringbuf_submit_header k skb ch))).finished = 0 ∧
      (scan_loop k skb (payload_offset k skb) j
        (scan_init (ringbuf_submit_header k skb ch))).cnt = j) ∧
    (load_window k skb (payload_offset k skb)
      (scan_loop k skb (payload_offset k skb) (kk + 1)
        (scan_init (ringbuf_submit_header k skb ch)))).take 4 =
      (payload_window (payload k skb) kk).drop 28 ∧
    scan_chunk TASK_CUSTOM_LEN 0
      { fullbuff := load_window k skb (payload_offset k skb)
          (scan_loop k skb (payload_offset k skb) (kk + 1)
            (scan_init (ringbuf_submit_header k skb ch))),
        finished := 0, len := TASK_CUSTOM_LEN } =
      { fullbuff := (load_window k skb (payload_offset k skb)
          (scan_loop k skb (payload_offset k skb) (kk + 1)
            (scan_init (ringbuf_submit_header k skb ch)))).set (r - 28 + 2) 0,
        finished := 1, len := r - 28 } ∧
    r - 28 < 4 ∧
    (scan_final k skb ch).finished = 1 ∧ (scan_final k skb ch).cnt = kk + 2 ∧
    ∃ c, fragments (appended ch (dump_skb_packet k skb ch).2) =
      (List.range (kk + 1)).map (fun i => (payload_window (payload k skb) i, 32)) ++
        [(c, r - 28)] := by
  have e1 : (32 * kk + r + 4) / 32 = kk + 1 := by omega
  have e2 : (32 * kk + r + 4) % 32 = r - 28 := by omega
  have hr' : payload_offset k skb + 32 * ((32 * kk + r + 4) / 32 + 1) ≤ skb.data.length := by
    rw [e1]; exact hread
  have hn := no_detection_before k skb (payload_offset k skb) _ hr' hp
  have hd := detects_at_of_payload k skb (payload_offset k skb) _ hr' hp
  rw [e1] at hn
  rw [e1, e2] at hd
  have hrun := fun j (hj : j ≤ kk + 1) => scan_loop_no_detection k skb (payload_offset k skb)
    (ringbuf_submit_header k skb ch) j (by omega) (fun i hi => hn i (by omega))
  obtain ⟨s1, s2, s3, _⟩ := hrun (kk + 1) (Nat.le_refl _)
  have hw := load_window_eq k skb (payload_offset k skb) (kk + 1) _ s1 s3
  obtain ⟨f1, f2, _⟩ := scan_loop_detected k skb (payload_offset k skb)
    (ringbuf_submit_header k skb ch) (kk + 1) (r - 28) (by omega) hn hd
  refine ⟨fun j hj => ⟨(hrun j hj).2.1, (hrun j hj).1⟩, ?_, ?_, by omega, f2, f1, ?_⟩
  · rw [hw]
    unfold window
    rw [List.take_left' (carry_length _ _ _ _)]
    have hc := chunk_eq_payload_window k skb (payload_offset k skb) kk (by omega)
    unfold payload
    rw [← hc, drop_28 _ (chunk_length _ _ _ _)]
    rfl
  · rw [hw]
    exact scan_chunk_found _ 0 (r - 28) _ (Nat.zero_le _) (by unfold TASK_CUSTOM_LEN; omega)
      hd.2.1 (fun i _ h => hd.2.2 i h)
  · have hmap : (List.range (kk + 1)).map (fun i => (chunk k skb (payload_offset k skb) i, 32)) =
        (List.range (kk + 1)).map (fun i => (payload_window (payload k skb) i, 32)) := by
      apply List.map_congr_left
      intro i hi
      rw [List.mem_range] at hi
      rw [chunk_eq_payload_window k skb _ i (by omega)]
      rfl
    rw [detected_fragments k skb ch (kk + 1) (r - 28) hport hsig hres (by omega) hn hd,
      if_pos (by omega), hmap]
    exact ⟨_, rfl⟩

set_option maxRecDepth 100000 in
theorem C5_straddling_terminator_witness :
    first_terminator_at (payload k_ok (mk_skb 4 straddling_request)) (32 * 0 + 30) ∧
    (scan_final k_ok (mk_skb 4 straddling_request) ch_empty).cnt = 0 + 2 ∧
    (fragments (appended ch_empty
      (dump_skb_packet k_ok (mk_skb 4 straddling_request) ch_empty).2)).map Prod.snd =
      [32, 2] := by
  have hf : first_terminator_at (payload k_ok (mk_skb 4 straddling_request)) (32 * 0 + 30) := by
    unfold first_terminator_at; decide
  have h := C5_straddling_terminator k_ok (mk_skb 4 straddling_request) ch_empty (by decide)
    (by decide) (fun _ => rfl) 0 30 (by decide) (by decide) hf (by decide)
  exact ⟨hf, h.2.2.2.2.2.1, by decide⟩



/-! ## The fragment of the detecting iteration -/

/-- An iteration that sees the terminator first at window index `idx`, from any state. -/
theorem scan_iteration_found (k : Helpers) (skb : __sk_buff) (offset idx : Nat)
    (st : ScanState) (h1 : idx < TASK_CUSTOM_LEN)
    (h2 : is_terminator (load_window k skb offset st) idx = true)
    (h3 : ∀ i < idx, is_terminator (load_window k skb offset st) i = false) :
    (scan_iteration k skb offset st).cnt = st.cnt + 1 ∧
    (scan_iteration k skb offset st).finished = 1 ∧
    (scan_iteration k skb offset st).ch =
      if idx ≠ 0 then
        ringbuf_submit_payload k st.ch (((load_window k skb offset st).set (idx + 2) 0).drop 4) idx
      else st.ch := by
  have hs : ∀ r : ScanResult, r.fullbuff = load_window k skb offset st →
      scan_chunk TASK_CUSTOM_LEN 0 r =
        { fullbuff := (load_window k skb offset st).set (idx + 2) 0, finished := 1, len := idx } :=
    fun r hr => by
      rw [← hr]
      exact scan_chunk_found _ 0 idx r (Nat.zero_le _) (by omega) (by rw [hr]; exact h2)
        (fun i _ h => by rw [hr]; exact h3 i h)
  unfold scan_iteration
  simp only []
  rw [hs _ rfl]
  refine ⟨?_, ?_, ?_⟩ <;> trivial

/-- The first `idx` bytes of the fragment copied out of a window `w` after the
sentinel write at `idx + 2`: the window bytes `4 .. idx + 3`, with 0 at `idx - 2`. -/
theorem detecting_fragment_getD (w slot : List Nat) (idx t : Nat) (hw : w.length = 36)
    (hs : slot.length = 32) (hi : idx < 32) (ht : t < idx) :
    (copy_loop ((w.set (idx + 2) 0).drop 4) idx 0 slot).getD t 0 =
      if t + 2 = idx then 0 else w.getD (t + 4) 0 := by
  rw [copy_loop_getD, if_pos ⟨Nat.zero_le _, by omega, by omega⟩]
  simp only [List.getD_eq_getElem?_getD, List.getElem?_drop, List.getElem?_set]
  by_cases e : t + 2 = idx
  · rw [if_pos (by omega), if_pos (by omega), if_pos e]; rfl
  · rw [if_neg (by omega), if_neg e, Nat.add_comm 4 t]

theorem load_window_length (k : Helpers) (skb : __sk_buff) (offset : Nat) (st : ScanState)
    (h : st.fullbuff.length = 36) : (load_window k skb offset st).length = 36 := by
  unfold load_window
  have := chunk_length k skb offset st.cnt
  unfold chunk at this
  rw [List.length_append, this, List.length_take, h]
  rfl

theorem load_window_getD (k : Helpers) (skb : __sk_buff) (offset : Nat) (st : ScanState)
    (h : st.fullbuff.length = 36) (t : Nat) :
    (load_window k skb offset st).getD (t + 4) 0 = (chunk k skb offset st.cnt).getD t 0 := by
  unfold load_window
  have hl : (st.fullbuff.take 4).length = 4 := by rw [List.length_take, h]; rfl
  rw [List.getD_append_right _ _ _ _ (by omega), hl, Nat.add_sub_cancel]
  rfl

/-- C8, as the code has it: an iteration that detects the terminator at window index
`idx`, its reservation succeeding, emits no fragment when `idx = 0` and otherwise one
fragment of length `idx` holding the first `idx` bytes of the current chunk with the
sentinel written. These bytes run up to the terminator's last byte: position `idx - 1`
holds the terminator's final LF, position `idx - 2` the sentinel 0, position `idx - 3`
its first LF and position `idx - 4` its first CR, as far as these positions exist;
the bytes that precede the terminator are the first `idx - 4` only. -/
theorem C8_detecting_fragment (k : Helpers) (skb : __sk_buff) (offset idx : Nat)
    (st : ScanState) (hlen : st.fullbuff.length = 36) (h1 : idx < TASK_CUSTOM_LEN)
    (h2 : is_terminator (load_window k skb offset st) idx = true)
    (h3 : ∀ i < idx, is_terminator (load_window k skb offset st) i = false)
    (hres : k.reserve_ok st.ch.attempts = true) :
    (scan_iteration k skb offset st).finished = 1 ∧
    (idx = 0 → appended st.ch (scan_iteration k skb offset st).ch = []) ∧
    (idx ≠ 0 → ∃ c, appended st.ch (scan_iteration k skb offset st).ch =
        [Record.fragment { custom := c } idx] ∧
      (∀ t < idx, t + 2 ≠ idx → c.getD t 0 = (chunk k skb offset st.cnt).getD t 0) ∧
      c.getD (idx - 1) 0 = 10 ∧
      (2 ≤ idx → c.getD (idx - 2) 0 = 0) ∧
      (3 ≤ idx → c.getD (idx - 3) 0 = 10) ∧
      (4 ≤ idx → c.getD (idx - 4) 0 = 13)) := by
  obtain ⟨_, g2, g3⟩ := scan_iteration_found k skb offset idx st h1 h2 h3
  obtain ⟨t0, t1, t2, t3⟩ := (is_terminator_iff _ _).mp h2
  have hw := load_window_length k skb offset st hlen
  unfold TASK_CUSTOM_LEN at h1
  refine ⟨g2, ?_, ?_⟩
  · intro h0
    rw [g3, if_neg (by simpa using h0)]
    simp [appended]
  · intro h0
    rw [g3, if_pos h0, ringbuf_submit_payload_ok _ _ _ _ hres]
    have hget := fun t (ht : t < idx) => detecting_fragment_getD (load_window k skb offset st)
      ((List.range TASK_CUSTOM_LEN).map (fun i => k.stale st.ch.attempts i % 256)) idx t hw
      (slot_length k _) h1 ht
    refine ⟨_, appended_eq _ _ _ rfl, ?_, ?_, ?_, ?_, ?_⟩
    · intro t ht hne
      rw [hget t ht, if_neg hne, load_window_getD k skb offset st hlen]
    · rw [hget _ (by omega), if_neg (by omega)]
      have e : idx - 1 + 4 = idx + 3 := by omega
      rw [e]; exact t3
    · intro h
      rw [hget _ (by omega), if_pos (by omega)]
    · intro h
      rw [hget _ (by omega), if_neg (by omega)]
      have e : idx - 3 + 4 = idx + 1 := by omega
      rw [e]; exact t1
    · intro h
      rw [hget _ (by omega), if_neg (by omega)]
      have e : idx - 4 + 4 = idx := by omega
      rw [e]; exact t0

set_option maxRecDepth 100000 in
theorem C8_detecting_fragment_witness :
    is_terminator (load_window k_ok (mk_skb 4 get_request) 40 (scan_init ch_empty)) 18 = true ∧
    (scan_iteration k_ok (mk_skb 4 get_request) 40 (scan_init ch_empty)).finished = 1 ∧
    ∃ c, appended ch_empty (scan_iteration k_ok (mk_skb 4 get_request) 40 (scan_init ch_empty)).ch =
        [Record.fragment { custom := c } 18] ∧
      c.getD 17 0 = 10 ∧ c.getD 16 0 = 0 ∧ c.getD 15 0 = 10 ∧ c.getD 14 0 = 13 := by
  have h := C8_detecting_fragment k_ok (mk_skb 4 get_request) 40 18 (scan_init ch_empty) rfl
    (by decide) (by decide) (by decide) rfl
  obtain ⟨c, hc, _, c1, c2, c3, c4⟩ := h.2.2 (by decide)
  exact ⟨by decide, h.1, c, hc, c1, c2 (by decide), c3 (by decide), c4 (by decide)⟩

set_option maxRecDepth 100000 in
/-- C8 as stated fails: the first iteration on `GET / HTTP/1.1` CR LF CR LF detects the
terminator at window index 18 and emits a fragment of length 18; the terminator sits at
the chunk positions 14 to 17, all within the fragment's first 18 bytes, where the
fragment holds CR, LF, the sentinel 0 and LF. -/
theorem C8_counterexample :
    is_terminator (load_window k_ok (mk_skb 4 get_request) 40 (scan_init ch_empty)) 18 = true ∧
    (∀ i < 18,
      is_terminator (load_window k_ok (mk_skb 4 get_request) 40 (scan_init ch_empty)) i = false) ∧
    terminator_at (chunk k_ok (mk_skb 4 get_request) 40 0) 14 ∧
    appended ch_empty (scan_iteration k_ok (mk_skb 4 get_request) 40 (scan_init ch_empty)).ch =
      [Record.fragment { custom :=
        [71, 69, 84, 32, 47, 32, 72, 84, 84, 80, 47, 49, 46, 49, 13, 10, 0, 10, 170, 170,
          170, 170, 170, 170, 170, 170, 170, 170, 170, 170, 170, 170] } 18] ∧
    (([71, 69, 84, 32, 47, 32, 72, 84, 84, 80, 47, 49, 46, 49, 13, 10, 0, 10, 170, 170,
          170, 170, 170, 170, 170, 170, 170, 170, 170, 170, 170, 170].take 18).drop 14 =
      [13, 10, 0, 10]) := by
  decide



/-! ## The fragments of a run whose reads succeed -/

theorem getElem?_map_range_append {α : Type} (f : Nat → α) (j : Nat) (B : List α) (i : Nat)
    (x : α) (h : ((List.range j).map f ++ B)[i]? = some x) :
    (i < j ∧ x = f i) ∨ (j ≤ i ∧ B[i - j]? = some x) := by
  by_cases hi : i < j
  · left
    rw [List.getElem?_append_left (by simpa using hi)] at h
    rw [List.getElem?_map, List.getElem?_range hi] at h
    exact ⟨hi, by simpa using h.symm⟩
  · right
    rw [List.getElem?_append_right (by simpa using hi)] at h
    exact ⟨by omega, by simpa using h⟩

/-- C4, as the code has it: for a matched packet whose chunk reads and reservations
all succeed, the `i`-th fragment emitted comes from iteration `i` and has a length
between 1 and 32. A fragment of an iteration that did not detect the terminator has
length 32 and is the `i`-th 32-byte window of the payload. The fragment of the detecting
iteration has a length `len` between 1 and 31 and carries in its first `len` bytes the
payload bytes `32*i .. 32*i + len - 1`, except that its byte at position `len - 2`, when
`len ≥ 2`, is the sentinel 0, where the payload has CR. -/
theorem C4_fragment_windows (k : Helpers) (skb : __sk_buff) (ch : Channel)
    (hport : bpf_ntohs (skb.remote_port >>> 16) = 80) (hsig : haveHTTP (probe k skb) = 1)
    (hres : ∀ n, k.reserve_ok n = true)
    (hread : payload_offset k skb + 32 * (scan_final k skb ch).cnt ≤ skb.data.length)
    (i : Nat) (c : List Nat) (len : Nat)
    (hfr : (fragments (appended ch (dump_skb_packet k skb ch).2))[i]? = some (c, len)) :
    1 ≤ len ∧ len ≤ 32 ∧ i + 1 ≤ (scan_final k skb ch).cnt ∧
    ((scan_final k skb ch).finished = 0 ∨ i + 1 < (scan_final k skb ch).cnt →
      len = 32 ∧ c = payload_window (payload k skb) i ∧
      ∀ t < 32, c.getD t 0 = (payload k skb).getD (32 * i + t) 0) ∧
    ((scan_final k skb ch).finished = 1 ∧ i + 1 = (scan_final k skb ch).cnt →
      len ≤ 31 ∧
      (∀ t < len, t + 2 ≠ len → c.getD t 0 = (payload k skb).getD (32 * i + t) 0) ∧
      (2 ≤ len → c.getD (len - 2) 0 = 0 ∧ (payload k skb).getD (32 * i + len - 2) 0 = 13)) := by
  have full : ∀ j, payload_offset k skb + 32 * j ≤ skb.data.length → i < j →
      chunk k skb (payload_offset k skb) i = payload_window (payload k skb) i ∧
      ∀ t < 32, (chunk k skb (payload_offset k skb) i).getD t 0 =
        (payload k skb).getD (32 * i + t) 0 := fun j hj hi =>
    ⟨chunk_eq_payload_window k skb _ i (by omega),
      fun t ht => chunk_getD k skb _ i t (by omega) ht⟩
  unfold scan_final at hread ⊢
  rcases detection_cases k skb (payload_offset k skb) with h | ⟨j, idx, hj, hn, hd⟩
  · obtain ⟨h1, h2, _⟩ := scan_loop_exhausted k skb (payload_offset k skb)
      (ringbuf_submit_header k skb ch) h
    rw [h1] at hread
    have hfrag : fragments (appended ch (dump_skb_packet k skb ch).2) =
        (List.range 10).map (fun i => (chunk k skb (payload_offset k skb) i, 32)) ++ [] := by
      rw [dump_skb_packet_matched k skb ch hport hsig]
      unfold scan_final
      obtain ⟨_, _, h3⟩ := scan_loop_exhausted k skb (payload_offset k skb)
        (ringbuf_submit_header k skb ch) h
      rw [appended_eq ch _ ([Record.tuple (header_event skb)] ++ (List.range 10).map
        (fun i => Record.fragment { custom := chunk k skb (payload_offset k skb) i } 32))
        (by rw [h3, full_frags_ok k skb _ _ hres, ringbuf_submit_header_ok _ _ _ (hres _),
          List.append_assoc])]
      simp only [fragments_append, fragments_map_fragment, fragments_tuple, List.nil_append,
        List.append_nil]
    rw [hfrag] at hfr
    rw [h1, h2]
    rcases getElem?_map_range_append _ _ _ _ _ hfr with ⟨hi, hx⟩ | ⟨_, hx⟩
    · obtain ⟨hc, hl⟩ := Prod.mk.inj hx
      obtain ⟨f1, f2⟩ := full 10 hread hi
      subst hl
      refine ⟨by omega, by omega, by omega,
        fun _ => ⟨rfl, by rw [hc, f1], fun t ht => by rw [hc]; exact f2 t ht⟩,
        fun hh => absurd hh.1 (by decide)⟩
    · simp at hx
  · obtain ⟨h1, h2, _⟩ := scan_loop_detected k skb (payload_offset k skb)
      (ringbuf_submit_header k skb ch) j idx hj hn hd
    rw [h1] at hread
    rw [h1, h2]
    rw [detected_fragments k skb ch j idx hport hsig hres hj hn hd] at hfr
    have hidx : idx < 32 := hd.1
    rcases getElem?_map_range_append _ _ _ _ _ hfr with ⟨hi, hx⟩ | ⟨hi, hx⟩
    · obtain ⟨hc, hl⟩ := Prod.mk.inj hx
      obtain ⟨f1, f2⟩ := full (j + 1) hread (by omega)
      subst hl
      refine ⟨by omega, by omega, by omega,
        fun _ => ⟨rfl, by rw [hc, f1], fun t ht => by rw [hc]; exact f2 t ht⟩,
        fun hh => by omega⟩
    · by_cases h0 : idx ≠ 0
      · rw [if_pos h0] at hx
        have hij : i - j = 0 := by
          by_contra hne
          rw [List.getElem?_eq_none (by simp; omega)] at hx
          exact Option.noConfusion hx
        rw [hij] at hx
        have hx' := Option.some.inj hx
        obtain ⟨hc, hl⟩ := Prod.mk.inj hx'
        have hij' : i = j := by omega
        subst hl
        have hg := fun t (ht : t < idx) =>
          detecting_fragment_getD (window k skb (payload_offset k skb) j)
            ((List.range TASK_CUSTOM_LEN).map (fun i => k.stale (ch.attempts + 1 + j) i % 256))
            idx t (window_length _ _ _ _) (slot_length k _) hidx ht
        obtain ⟨_, _, t2, _⟩ := (is_terminator_iff _ _).mp hd.2.1
        refine ⟨by omega, by omega, by omega, fun hh => by omega, fun _ => ⟨by omega, ?_, ?_⟩⟩
        · intro t ht hne
          rw [← hc, hg t ht, if_neg hne, window_getD k skb _ j (t + 4) (by omega) (by omega),
            if_neg (by omega), hij']
          have e' : 32 * j + (t + 4) - 4 = 32 * j + t := by omega
          rw [e']
          rfl
        · intro h2le
          refine ⟨by rw [← hc, hg _ (by omega), if_pos (by omega)], ?_⟩
          rw [window_getD k skb _ j (idx + 2) (by omega) (by omega), if_neg (by omega)] at t2
          have e' : 32 * j + (idx + 2) - 4 = 32 * i + idx - 2 := by omega
          rw [e'] at t2
          exact t2
      · rw [if_neg h0] at hx
        simp at hx

set_option maxRecDepth 100000 in
theorem C4_fragment_windows_witness :
    (fragments (appended ch_empty
      (dump_skb_packet k_ok (mk_skb 4 get_request) ch_empty).2))[0]? =
      some ([71, 69, 84, 32, 47, 32, 72, 84, 84, 80, 47, 49, 46, 49, 13, 10, 0, 10] ++
        List.replicate 14 170, 18) ∧
    (scan_final k_ok (mk_skb 4 get_request) ch_empty).finished = 1 ∧
    0 + 1 = (scan_final k_ok (mk_skb 4 get_request) ch_empty).cnt ∧
    (18 ≤ 31 ∧
      (∀ t < 18, t + 2 ≠ 18 →
        ([71, 69, 84, 32, 47, 32, 72, 84, 84, 80, 47, 49, 46, 49, 13, 10, 0, 10] ++
          List.replicate 14 170).getD t 0 =
        (payload k_ok (mk_skb 4 get_request)).getD (32 * 0 + t) 0) ∧
      (2 ≤ 18 →
        ([71, 69, 84, 32, 47, 32, 72, 84, 84, 80, 47, 49, 46, 49, 13, 10, 0, 10] ++
          List.replicate 14 170).getD (18 - 2) 0 = 0 ∧
        (payload k_ok (mk_skb 4 get_request)).getD (32 * 0 + 18 - 2) 0 = 13)) :=
  ⟨by decide, by decide, by decide,
    (C4_fragment_windows k_ok (mk_skb 4 get_request) ch_empty (by decide) (by decide)
      (fun _ => rfl) (by decide) 0 _ 18 (by decide)).2.2.2.2 ⟨by decide, by decide⟩⟩

set_option maxRecDepth 100000 in
/-- C4 as stated fails: the only fragment emitted for `GET / HTTP/1.1` CR LF CR LF has
length 18, and its byte 16 is the sentinel 0 where the payload has CR. -/
theorem C4_counterexample :
    bpf_ntohs ((mk_skb 4 get_request).remote_port >>> 16) = 80 ∧
    haveHTTP (probe k_ok (mk_skb 4 get_request)) = 1 ∧
    payload_offset k_ok (mk_skb 4 get_request) +
      32 * (scan_final k_ok (mk_skb 4 get_request) ch_empty).cnt ≤
        (mk_skb 4 get_request).data.length ∧
    fragments (appended ch_empty (dump_skb_packet k_ok (mk_skb 4 get_request) ch_empty).2) =
      [([71, 69, 84, 32, 47, 32, 72, 84, 84, 80, 47, 49, 46, 49, 13, 10, 0, 10, 170, 170,
          170, 170, 170, 170, 170, 170, 170, 170, 170, 170, 170, 170], 18)] ∧
    (payload_window (payload k_ok (mk_skb 4 get_request)) 0).take 18 =
      [71, 69, 84, 32, 47, 32, 72, 84, 84, 80, 47, 49, 46, 49, 13, 10, 13, 10] ∧
    [71, 69, 84, 32, 47, 32, 72, 84, 84, 80, 47, 49, 46, 49, 13, 10, 0, 10, 170, 170,
          170, 170, 170, 170, 170, 170, 170, 170, 170, 170, 170, 170].take 18 ≠
      (payload_window (payload k_ok (mk_skb 4 get_request)) 0).take 18 := by
  decide



/-! ## Bounds on what one call appends -/

theorem appended_self (ch : Channel) : appended ch ch = [] := by
  simp [appended]

theorem ringbuf_submit_payload_bounded (k : Helpers) (ch : Channel) (pl : List Nat) (len : Nat)
    (h1 : 1 ≤ len) (h2 : len ≤ 32) :
    ∃ frs, frs.all fragment_len_ok = true ∧ frs.length ≤ 1 ∧
      (ringbuf_submit_payload k ch pl len).records = ch.records ++ frs := by
  cases h : k.reserve_ok ch.attempts
  · exact ⟨[], rfl, by simp, by rw [ringbuf_submit_payload_full _ _ _ _ h]; simp⟩
  · rw [ringbuf_submit_payload_ok _ _ _ _ h]
    exact ⟨[Record.fragment _ len], by simp [fragment_len_ok, h1, h2], by simp, rfl⟩

theorem full_frags_bounded (k : Helpers) (skb : __sk_buff) (offset : Nat) (ch : Channel)
    (j : Nat) : ∃ frs, frs.all fragment_len_ok = true ∧ frs.length ≤ j ∧
      (full_frags k skb offset ch j).records = ch.records ++ frs := by
  induction j with
  | zero => exact ⟨[], rfl, by simp, by simp [full_frags]⟩
  | succ j ih =>
    obtain ⟨f1, h1, l1, e1⟩ := ih
    obtain ⟨f2, h2, l2, e2⟩ := ringbuf_submit_payload_bounded k (full_frags k skb offset ch j)
      (chunk k skb offset j) TASK_CUSTOM_LEN (by decide) (by decide)
    refine ⟨f1 ++ f2, by simp [List.all_append, h1, h2], by simp; omega, ?_⟩
    simp only [full_frags]
    rw [e2, e1, List.append_assoc]

/-- Whatever the reads and reservations do, the scanner runs at most ten iterations and
appends at most one fragment per iteration, each with a length between 1 and 32. -/
theorem scan_loop_bounded (k : Helpers) (skb : __sk_buff) (offset : Nat) (ch : Channel) :
    ∃ frs, frs.all fragment_len_ok = true ∧
      frs.length ≤ (scan_loop k skb offset 10 (scan_init ch)).cnt ∧
      (scan_loop k skb offset 10 (scan_init ch)).cnt ≤ 10 ∧
      (scan_loop k skb offset 10 (scan_init ch)).ch.records = ch.records ++ frs := by
  rcases detection_cases k skb offset with h | ⟨j, idx, hj, hn, hd⟩
  · obtain ⟨h1, _, h3⟩ := scan_loop_exhausted k skb offset ch h
    obtain ⟨f1, a1, l1, e1⟩ := full_frags_bounded k skb offset ch 10
    exact ⟨f1, a1, by omega, by omega, by rw [h3, e1]⟩
  · obtain ⟨h1, _, h3⟩ := scan_loop_detected k skb offset ch j idx hj hn hd
    rw [h3, h1]
    obtain ⟨f1, a1, l1, e1⟩ := full_frags_bounded k skb offset ch j
    have hidx : idx < 32 := hd.1
    split_ifs with hi
    · obtain ⟨f2, a2, l2, e2⟩ := ringbuf_submit_payload_bounded k (full_frags k skb offset ch j)
        (((window k skb offset j).set (idx + 2) 0).drop 4) idx (by omega) (by omega)
      exact ⟨f1 ++ f2, by simp [List.all_append, a1, a2], by simp; omega, by omega,
        by rw [e2, e1, List.append_assoc]⟩
    · exact ⟨f1, a1, by omega, by omega, e1⟩

theorem fragments_of_bounded (frs : List Record) (h : frs.all fragment_len_ok = true) :
    (fragments frs).length = frs.length ∧ tuples frs = [] ∧
      ∀ c len, (c, len) ∈ fragments frs → 1 ≤ len ∧ len ≤ 32 := by
  induction frs with
  | nil => exact ⟨rfl, rfl, by simp [fragments]⟩
  | cons r rs ih =>
    rw [List.all_cons, Bool.and_eq_true] at h
    obtain ⟨i1, i2, i3⟩ := ih h.2
    cases r with
    | tuple e => simp [fragment_len_ok] at h
    | fragment ep len =>
      have hb : 1 ≤ len ∧ len ≤ 32 := by simpa [fragment_len_ok] using h.1
      refine ⟨by simp [fragments, i1], by simp [tuples, i2], ?_⟩
      intro c l hm
      simp only [fragments, List.mem_cons] at hm
      rcases hm with e | hm
      · obtain ⟨_, e2⟩ := Prod.mk.inj e
        rw [e2]; exact hb
      · exact i3 c l hm

theorem tuples_append (a b : List Record) : tuples (a ++ b) = tuples a ++ tuples b := by
  induction a with
  | nil => rfl
  | cons r a ih => cases r <;> simp [tuples, ih]

/-- What one call of `dump_skb_packet` appends, for every input: nothing, or, for a
matched packet, the tuple record if its reservation succeeds and then at most ten
fragment records. -/
theorem dump_appended_cases (k : Helpers) (skb : __sk_buff) (ch : Channel) :
    appended ch (dump_skb_packet k skb ch).2 = [] ∨
    (bpf_ntohs (skb.remote_port >>> 16) = 80 ∧ haveHTTP (probe k skb) = 1 ∧
      ∃ frs, frs.all fragment_len_ok = true ∧ frs.length ≤ (scan_final k skb ch).cnt ∧
        (scan_final k skb ch).cnt ≤ 10 ∧
        appended ch (dump_skb_packet k skb ch).2 =
          (if k.reserve_ok ch.attempts then [Record.tuple (header_event skb)] else []) ++ frs) := by
  by_cases hport : bpf_ntohs (skb.remote_port >>> 16) = 80
  · by_cases hsig : haveHTTP (probe k skb) = 1
    · right
      refine ⟨hport, hsig, ?_⟩
      obtain ⟨frs, a1, l1, l2, e1⟩ :=
        scan_loop_bounded k skb (payload_offset k skb) (ringbuf_submit_header k skb ch)
      refine ⟨frs, a1, l1, l2, ?_⟩
      apply appended_eq
      rw [dump_skb_packet_matched k skb ch hport hsig]
      unfold scan_final
      rw [e1]
      cases h : k.reserve_ok ch.attempts
      · rw [ringbuf_submit_header_full _ _ _ h]; simp
      · rw [ringbuf_submit_header_ok _ _ _ h]; simp
    · left
      have e : (dump_skb_packet k skb ch).2 = ch := by
        unfold dump_skb_packet normalized_port
        rw [if_neg (by rw [hport]; simp), if_pos hsig]
      rw [e, appended_self]
  · left
    have e : (dump_skb_packet k skb ch).2 = ch := by
      unfold dump_skb_packet normalized_port
      rw [if_pos hport]
    rw [e, appended_self]

/-- C12: for every packet context, every outcome of the reads and every outcome of the
reservations, `dump_skb_packet` returns 1, and `dump_egress_packets` and
`dump_ingress_packets` return the same value and leave the same channel as
`dump_skb_packet` on the same input. -/
theorem C12_verdict_and_entry_points (k : Helpers) (skb : __sk_buff) (ch : Channel) :
    (dump_skb_packet k skb ch).1 = 1 ∧
    dump_egress_packets k skb ch = dump_skb_packet k skb ch ∧
    dump_ingress_packets k skb ch = dump_skb_packet k skb ch ∧
    (dump_egress_packets k skb ch).1 = 1 ∧ (dump_ingress_packets k skb ch).1 = 1 :=
  ⟨dump_skb_packet_fst k skb ch, rfl, rfl, dump_skb_packet_fst k skb ch,
    dump_skb_packet_fst k skb ch⟩

/-- C14: for every packet context, every packet content and every outcome of reads and
reservations, one call of `dump_skb_packet` performs at most 10 scanner iterations and
appends at most 10 fragment records and at most 11 records in total, each fragment with
a length between 1 and 32. -/
theorem C14_bounded_emission (k : Helpers) (skb : __sk_buff) (ch : Channel) :
    (scan_final k skb ch).cnt ≤ 10 ∧
    (fragments (appended ch (dump_skb_packet k skb ch).2)).length ≤ 10 ∧
    (tuples (appended ch (dump_skb_packet k skb ch).2)).length ≤ 1 ∧
    (appended ch (dump_skb_packet k skb ch).2).length ≤ 11 ∧
    ∀ c len, (c, len) ∈ fragments (appended ch (dump_skb_packet k skb ch).2) →
      1 ≤ len ∧ len ≤ 32 := by
  have hcnt : (scan_final k skb ch).cnt ≤ 10 :=
    (scan_loop_bounded k skb (payload_offset k skb) (ringbuf_submit_header k skb ch)).choose_spec.2.2.1
  refine ⟨hcnt, ?_⟩
  rcases dump_appended_cases k skb ch with h | ⟨_, _, frs, a1, l1, l2, e⟩
  · rw [h]; simp [fragments, tuples]
  · obtain ⟨f1, f2, f3⟩ := fragments_of_bounded frs a1
    rw [e]
    cases k.reserve_ok ch.attempts
    · simp only [Bool.false_eq_true, if_false, List.nil_append, f1, f2]
      exact ⟨by omega, by simp, by omega, f3⟩
    · simp only [if_true, fragments_append, fragments_tuple, tuples_append, f1, f2,
        List.nil_append, List.length_append, List.length_singleton]
      exact ⟨by omega, by simp [tuples], by omega, f3⟩

/-- C19: every tuple record that `dump_skb_packet` appends carries port 80 on the
remote side: its `dport` is 80 when `pkt_type` is not `PACKET_HOST`, its `sport` is 80
when `pkt_type` is `PACKET_HOST`. -/
theorem C19_remote_port_80 (k : Helpers) (skb : __sk_buff) (ch : Channel) (e : event_t)
    (he : Record.tuple e ∈ appended ch (dump_skb_packet k skb ch).2) :
    (skb.pkt_type ≠ PACKET_HOST → e.dport = 80) ∧
    (skb.pkt_type = PACKET_HOST → e.sport = 80) := by
  rcases dump_appended_cases k skb ch with h | ⟨hport, _, frs, a1, _, _, h⟩
  · rw [h] at he; simp at he
  · rw [h, List.mem_append] at he
    have hev : e = header_event skb := by
      rcases he with he | he
      · split_ifs at he
        · simpa using he
        · simp at he
      · have := List.all_eq_true.mp a1 _ he
        simp [fragment_len_ok] at this
    rw [hev]
    unfold header_event
    constructor
    · intro hp; rw [if_neg hp]; exact hport
    · intro hp; rw [if_pos hp]; exact hport

set_option maxRecDepth 100000 in
theorem C19_remote_port_80_witness :
    Record.tuple { sport := 80, dport := 40000, saddr := 0x0100007f, daddr := 0x0200007f } ∈
      appended ch_empty (dump_skb_packet k_ok (mk_skb 0 get_request) ch_empty).2 ∧
    (({ sport := 80, dport := 40000, saddr := 0x0100007f, daddr := 0x0200007f } : event_t).sport
      = 80) :=
  ⟨by decide,
    (C19_remote_port_80 k_ok (mk_skb 0 get_request) ch_empty _ (by decide)).2 rfl⟩



/-! ## Failed reservations drop their record and nothing else -/

theorem kept_append (ok : Nat → Bool) (n : Nat) (xs ys : List Record) :
    kept ok n (xs ++ ys) = kept ok n xs ++ kept ok (n + xs.length) ys := by
  induction xs generalizing n with
  | nil => simp [kept]
  | cons x xs ih =>
    show (if ok n then [x] else []) ++ kept ok (n + 1) (xs ++ ys) =
      ((if ok n then [x] else []) ++ kept ok (n + 1) xs) ++ kept ok (n + (xs.length + 1)) ys
    have e : n + 1 + xs.length = n + (xs.length + 1) := by omega
    rw [ih, List.append_assoc, e]

theorem kept_cons (ok : Nat → Bool) (n : Nat) (r : Record) (rs : List Record) :
    kept ok n (r :: rs) = kept ok n [r] ++ kept ok (n + 1) rs := by
  simp [kept]

theorem kept_all (n : Nat) (xs : List Record) : kept (fun _ => true) n xs = xs := by
  induction xs generalizing n with
  | nil => rfl
  | cons x xs ih => simp [kept, ih]

theorem ringbuf_submit_payload_kept (k : Helpers) (ch : Channel) (pl : List Nat) (len : Nat) :
    (ringbuf_submit_payload k ch pl len).records =
      ch.records ++ kept k.reserve_ok ch.attempts [Record.fragment
        { custom := copy_loop pl len 0
            ((List.range TASK_CUSTOM_LEN).map (fun i => k.stale ch.attempts i % 256)) } len] := by
  cases h : k.reserve_ok ch.attempts
  · rw [ringbuf_submit_payload_full _ _ _ _ h]; simp [kept, h]
  · rw [ringbuf_submit_payload_ok _ _ _ _ h]; simp [kept, h]

theorem ringbuf_submit_header_kept (k : Helpers) (skb : __sk_buff) (ch : Channel) :
    (ringbuf_submit_header k skb ch).records =
      ch.records ++ kept k.reserve_ok ch.attempts [Record.tuple (header_event skb)] := by
  cases h : k.reserve_ok ch.attempts
  · rw [ringbuf_submit_header_full _ _ _ h]; simp [kept, h]
  · rw [ringbuf_submit_header_ok _ _ _ h]; simp [kept, h]

theorem full_frags_kept (k : Helpers) (skb : __sk_buff) (offset : Nat) (ch : Channel) (j : Nat) :
    (full_frags k skb offset ch j).records =
      ch.records ++ kept k.reserve_ok ch.attempts
        ((List.range j).map (fun i => Record.fragment { custom := chunk k skb offset i } 32)) := by
  induction j with
  | zero => simp [full_frags, kept]
  | succ j ih =>
    simp only [full_frags]
    rw [ringbuf_submit_payload_kept, ih, full_frags_attempts, List.range_succ, List.map_append,
      kept_append, List.length_map, List.length_range, List.append_assoc,
      copy_loop_full _ _ (chunk_length k skb offset j) (slot_length k _)]
    rfl

/-- The run of a matched packet in which no iteration sees the terminator. -/
theorem run_exhausted (k : Helpers) (skb : __sk_buff) (ch : Channel)
    (hn : ∀ i < 10, no_detection k skb (payload_offset k skb) i) :
    (scan_final k skb ch).cnt = 10 ∧ (scan_final k skb ch).finished = 0 ∧
    (scan_final k skb ch).ch.attempts = ch.attempts + 11 ∧
    (scan_final k skb ch).ch.records = ch.records ++ kept k.reserve_ok ch.attempts
      (Record.tuple (header_event skb) ::
        submitted k skb (payload_offset k skb) 10 0 (ch.attempts + 11)) := by
  obtain ⟨h1, h2, h3⟩ := scan_loop_exhausted k skb (payload_offset k skb)
    (ringbuf_submit_header k skb ch) hn
  unfold scan_final
  refine ⟨h1, h2, ?_, ?_⟩
  · rw [h3, full_frags_attempts, ringbuf_submit_header_attempts]
  · rw [h3, full_frags_kept, ringbuf_submit_header_kept, ringbuf_submit_header_attempts]
    unfold submitted
    rw [if_neg (by simp), List.append_nil]
    conv_rhs => rw [kept_cons]
    rw [List.append_assoc]

/-- The run of a matched packet in which iteration `j` is the first to see the
terminator, at window index `idx`. -/
theorem run_detected (k : Helpers) (skb : __sk_buff) (ch : Channel) (j idx : Nat) (hj : j < 10)
    (hn : ∀ i < j, no_detection k skb (payload_offset k skb) i)
    (hd : detects_at k skb (payload_offset k skb) j idx) :
    (scan_final k skb ch).cnt = j + 1 ∧ (scan_final k skb ch).finished = 1 ∧
    (scan_final k skb ch).ch.attempts = ch.attempts + 1 + j + (if idx ≠ 0 then 1 else 0) ∧
    (scan_final k skb ch).ch.records = ch.records ++ kept k.reserve_ok ch.attempts
      (Record.tuple (header_event skb) ::
        submitted k skb (payload_offset k skb) j idx (ch.attempts + 1 + j)) := by
  obtain ⟨h1, h2, h3⟩ := scan_loop_detected k skb (payload_offset k skb)
    (ringbuf_submit_header k skb ch) j idx hj hn hd
  have ha := full_frags_attempts k skb (payload_offset k skb) (ringbuf_submit_header k skb ch) j
  rw [ringbuf_submit_header_attempts] at ha
  have hr := full_frags_kept k skb (payload_offset k skb) (ringbuf_submit_header k skb ch) j
  rw [ringbuf_submit_header_kept, ringbuf_submit_header_attempts] at hr
  unfold scan_final
  refine ⟨h1, h2, ?_, ?_⟩
  · rw [h3]
    by_cases hi : idx ≠ 0
    · rw [if_pos hi, if_pos hi, ringbuf_submit_payload_attempts, ha]
    · rw [if_neg hi, if_neg hi, ha]
      rfl
  · rw [h3]
    unfold submitted
    conv_rhs => rw [kept_cons, kept_append, List.length_map, List.length_range]
    by_cases hi : idx ≠ 0
    · rw [if_pos hi, if_pos hi, ringbuf_submit_payload_kept, hr, ha]
      simp only [List.append_assoc]
    · rw [if_neg hi, if_neg hi, hr]
      simp only [kept, List.append_nil, List.append_assoc]



/-! ## The reads do not depend on the reservations -/

theorem chunk_congr (k1 k2 : Helpers) (hf : k1.fault = k2.fault) (skb : __sk_buff)
    (offset j : Nat) : chunk k1 skb offset j = chunk k2 skb offset j := by
  unfold chunk bpf_skb_load_bytes
  rw [hf]

theorem window_congr (k1 k2 : Helpers) (hf : k1.fault = k2.fault) (skb : __sk_buff)
    (offset j : Nat) : window k1 skb offset j = window k2 skb offset j := by
  unfold window
  rw [chunk_congr k1 k2 hf]
  cases j with
  | zero => rfl
  | succ j => simp only [carry, chunk_congr k1 k2 hf]

theorem payload_offset_congr (k1 k2 : Helpers) (hf : k1.fault = k2.fault) (skb : __sk_buff) :
    payload_offset k1 skb = payload_offset k2 skb := by
  unfold payload_offset bpf_skb_load_bytes
  rw [hf]

theorem probe_congr (k1 k2 : Helpers) (hf : k1.fault = k2.fault) (skb : __sk_buff) :
    probe k1 skb = probe k2 skb := by
  unfold probe
  rw [payload_offset_congr k1 k2 hf]
  unfold bpf_skb_load_bytes
  rw [hf]

theorem no_detection_congr (k1 k2 : Helpers) (hf : k1.fault = k2.fault) (skb : __sk_buff)
    (offset j : Nat) (h : no_detection k1 skb offset j) : no_detection k2 skb offset j := by
  unfold no_detection at h ⊢
  rw [← window_congr k1 k2 hf]; exact h

theorem detects_at_congr (k1 k2 : Helpers) (hf : k1.fault = k2.fault) (skb : __sk_buff)
    (offset j idx : Nat) (h : detects_at k1 skb offset j idx) :
    detects_at k2 skb offset j idx := by
  unfold detects_at at h ⊢
  rw [← window_congr k1 k2 hf]; exact h

/-- The number of iterations, `finished` and the number of reservations attempted by
the scanner depend on the helpers through the reads only. -/
theorem scan_final_congr (k1 k2 : Helpers) (hf : k1.fault = k2.fault) (skb : __sk_buff)
    (ch : Channel) :
    (scan_final k1 skb ch).cnt = (scan_final k2 skb ch).cnt ∧
    (scan_final k1 skb ch).finished = (scan_final k2 skb ch).finished ∧
    (scan_final k1 skb ch).ch.attempts = (scan_final k2 skb ch).ch.attempts := by
  have ho := payload_offset_congr k1 k2 hf skb
  rcases detection_cases k1 skb (payload_offset k1 skb) with h | ⟨j, idx, hj, hn, hd⟩
  · obtain ⟨a1, a2, a3, _⟩ := run_exhausted k1 skb ch h
    obtain ⟨b1, b2, b3, _⟩ := run_exhausted k2 skb ch
      (fun i hi => by rw [← ho]; exact no_detection_congr k1 k2 hf skb _ i (h i hi))
    exact ⟨by rw [a1, b1], by rw [a2, b2], by rw [a3, b3]⟩
  · obtain ⟨a1, a2, a3, _⟩ := run_detected k1 skb ch j idx hj hn hd
    obtain ⟨b1, b2, b3, _⟩ := run_detected k2 skb ch j idx hj
      (fun i hi => by rw [← ho]; exact no_detection_congr k1 k2 hf skb _ i (hn i hi))
      (by rw [← ho]; exact detects_at_congr k1 k2 hf skb _ j idx hd)
    exact ⟨by rw [a1, b1], by rw [a2, b2], by rw [a3, b3]⟩

theorem dump_skb_packet_unmatched (k : Helpers) (skb : __sk_buff) (ch : Channel)
    (h : ¬ (bpf_ntohs (skb.remote_port >>> 16) = 80 ∧ haveHTTP (probe k skb) = 1)) :
    (dump_skb_packet k skb ch).2 = ch := by
  unfold dump_skb_packet normalized_port
  by_cases hport : bpf_ntohs (skb.remote_port >>> 16) = 80
  · rw [if_neg (by rw [hport]; simp), if_pos (fun e => h ⟨hport, e⟩)]
  · rw [if_pos hport]

/-- What a call appends is, of what it appends when every reservation succeeds, the
records whose reservation succeeds. -/
theorem dump_kept (k : Helpers) (skb : __sk_buff) (ch : Channel) :
    appended ch (dump_skb_packet k skb ch).2 =
      kept k.reserve_ok ch.attempts (appended ch (dump_skb_packet (all_ok k) skb ch).2) := by
  by_cases hm : bpf_ntohs (skb.remote_port >>> 16) = 80 ∧ haveHTTP (probe k skb) = 1
  · rw [dump_skb_packet_matched k skb ch hm.1 hm.2,
      dump_skb_packet_matched (all_ok k) skb ch hm.1 hm.2]
    rcases detection_cases k skb (payload_offset k skb) with h | ⟨j, idx, hj, hn, hd⟩
    · obtain ⟨_, _, _, a4⟩ := run_exhausted k skb ch h
      obtain ⟨_, _, _, b4⟩ := run_exhausted (all_ok k) skb ch h
      rw [appended_eq _ _ _ a4, appended_eq _ _ _ b4]
      show _ = kept _ _ (kept (fun _ => true) _ _)
      rw [kept_all]
      rfl
    · obtain ⟨_, _, _, a4⟩ := run_detected k skb ch j idx hj hn hd
      obtain ⟨_, _, _, b4⟩ := run_detected (all_ok k) skb ch j idx hj hn hd
      rw [appended_eq _ _ _ a4, appended_eq _ _ _ b4]
      show _ = kept _ _ (kept (fun _ => true) _ _)
      rw [kept_all]
      rfl
  · rw [dump_skb_packet_unmatched k skb ch hm, dump_skb_packet_unmatched (all_ok k) skb ch hm,
      appended_self]
    rfl

/-- C11: when its reservation fails, `ringbuf_submit_header` and
`ringbuf_submit_payload` return with the records of the channel unchanged; and in
`dump_skb_packet` the reservations change neither the number of scanner iterations nor
the number of emission attempts nor the return value: these are the same under any two
reservation behaviours, and the records appended are, of the records appended when every
reservation succeeds, exactly those whose own reservation succeeds. -/
theorem C11_reservation_failure (k1 k2 : Helpers) (skb : __sk_buff) (ch : Channel)
    (pl : List Nat) (len : Nat) (hf : k1.fault = k2.fault) :
    (k1.reserve_ok ch.attempts = false →
      (ringbuf_submit_header k1 skb ch).records = ch.records ∧
      (ringbuf_submit_payload k1 ch pl len).records = ch.records) ∧
    (dump_skb_packet k1 skb ch).1 = (dump_skb_packet k2 skb ch).1 ∧
    (scan_final k1 skb ch).cnt = (scan_final k2 skb ch).cnt ∧
    (scan_final k1 skb ch).finished = (scan_final k2 skb ch).finished ∧
    (dump_skb_packet k1 skb ch).2.attempts = (dump_skb_packet k2 skb ch).2.attempts ∧
    appended ch (dump_skb_packet k1 skb ch).2 =
      kept k1.reserve_ok ch.attempts (appended ch (dump_skb_packet (all_ok k1) skb ch).2) := by
  obtain ⟨c1, c2, c3⟩ := scan_final_congr k1 k2 hf skb ch
  refine ⟨fun h => ⟨by rw [ringbuf_submit_header_full _ _ _ h],
    by rw [ringbuf_submit_payload_full _ _ _ _ h]⟩,
    by rw [dump_skb_packet_fst, dump_skb_packet_fst], c1, c2, ?_, dump_kept k1 skb ch⟩
  by_cases hm : bpf_ntohs (skb.remote_port >>> 16) = 80 ∧ haveHTTP (probe k1 skb) = 1
  · rw [dump_skb_packet_matched k1 skb ch hm.1 hm.2,
      dump_skb_packet_matched k2 skb ch hm.1 (by rw [← probe_congr k1 k2 hf]; exact hm.2)]
    exact c3
  · rw [dump_skb_packet_unmatched k1 skb ch hm,
      dump_skb_packet_unmatched k2 skb ch (by rw [← probe_congr k1 k2 hf]; exact hm)]

set_option maxRecDepth 100000 in
theorem C11_reservation_failure_witness :
    (scan_final k_gaps (mk_skb 4 straddling_request) ch_empty).cnt =
      (scan_final k_ok (mk_skb 4 straddling_request) ch_empty).cnt ∧
    (dump_skb_packet k_gaps (mk_skb 4 straddling_request) ch_empty).2.attempts = 3 ∧
    (dump_skb_packet k_ok (mk_skb 4 straddling_request) ch_empty).2.attempts = 3 ∧
    (appended ch_empty (dump_skb_packet k_gaps (mk_skb 4 straddling_request) ch_empty).2).length
      = 1 ∧
    (appended ch_empty (dump_skb_packet k_ok (mk_skb 4 straddling_request) ch_empty).2).length
      = 3 := by
  have h := C11_reservation_failure k_gaps k_ok (mk_skb 4 straddling_request) ch_empty [] 0 rfl
  exact ⟨h.2.2.1, by decide, by decide, by decide, by decide⟩



/-! ## The probe of a packet that is too short -/

theorem probe_of_failed_read (k : Helpers) (skb : __sk_buff)
    (hfail : skb.data.length < payload_offset k skb + 7) :
    probe k skb = (List.range 7).map (fun i => k.fault (payload_offset k skb) 7 i % 256) := by
  unfold probe bpf_skb_load_bytes
  rw [if_neg (by omega)]

/-- C13: for a packet to port 80 whose 7-byte probe read at the payload offset fails
because the packet holds fewer than `offset + 7` bytes, the read helper clearing the
destination of a failed read as the kernel's does: `p` holds seven zeros, no signature
matches, and `dump_skb_packet` rejects the packet: it appends no tuple record and no
fragment record, and the channel after the call is the channel before it. -/
theorem C13_failed_probe (k : Helpers) (skb : __sk_buff) (ch : Channel)
    (hport : bpf_ntohs (skb.remote_port >>> 16) = 80)
    (hfail : skb.data.length < payload_offset k skb + 7)
    (hz : leaves_zeros k (payload_offset k skb) 7) :
    normalized_port skb = 80 ∧
    (bpf_skb_load_bytes k skb (payload_offset k skb) 7).1 = false ∧
    probe k skb = [0, 0, 0, 0, 0, 0, 0] ∧
    haveHTTP (probe k skb) = 0 ∧
    (dump_skb_packet k skb ch).2 = ch ∧
    appended ch (dump_skb_packet k skb ch).2 = [] ∧
    tuples (appended ch (dump_skb_packet k skb ch).2) = [] ∧
    fragments (appended ch (dump_skb_packet k skb ch).2) = [] := by
  have hp : probe k skb = [0, 0, 0, 0, 0, 0, 0] := by
    rw [probe_of_failed_read k skb hfail]
    have hr : List.range 7 = [0, 1, 2, 3, 4, 5, 6] := by decide
    rw [hr]
    simp only [List.map_cons, List.map_nil]
    rw [hz 0 (by omega), hz 1 (by omega), hz 2 (by omega), hz 3 (by omega), hz 4 (by omega),
      hz 5 (by omega), hz 6 (by omega)]
  have hh : haveHTTP (probe k skb) = 0 := by rw [hp]; decide
  have e : (dump_skb_packet k skb ch).2 = ch :=
    dump_skb_packet_unmatched k skb ch (fun hm => by rw [hh] at hm; exact absurd hm.2 (by decide))
  refine ⟨hport, ?_, hp, hh, e, ?_, ?_, ?_⟩
  · unfold bpf_skb_load_bytes
    rw [if_neg (by omega)]
  · rw [e, appended_self]
  · rw [e, appended_self]; rfl
  · rw [e, appended_self]; rfl

set_option maxRecDepth 100000 in
theorem C13_failed_probe_witness :
    bpf_ntohs (short_skb.remote_port >>> 16) = 80 ∧
    short_skb.data.length = 42 ∧ payload_offset k_ok short_skb = 40 ∧
    leaves_zeros k_ok (payload_offset k_ok short_skb) 7 ∧
    (dump_skb_packet k_ok short_skb ch_empty).2 = ch_empty :=
  ⟨by decide, by decide, by decide, fun _ _ => rfl,
    (C13_failed_probe k_ok short_skb ch_empty (by decide) (by decide) (fun _ _ => rfl)).2.2.2.2.1⟩

set_option maxRecDepth 100000 in
/-- The rejection of a packet that is too short rests on the zeros: the program does not
look at the result of the read, and if a failed read left `GET / H` in `p`, the packet
of 42 bytes would be accepted. -/
theorem leftover_probe_accepted :
    bpf_ntohs (short_skb.remote_port >>> 16) = 80 ∧
    payload_offset k_leftover short_skb = 40 ∧
    short_skb.data.length = 42 ∧
    (bpf_skb_load_bytes k_leftover short_skb 40 7).1 = false ∧
    probe k_leftover short_skb = [71, 69, 84, 32, 47, 32, 72] ∧
    tuples (appended ch_empty (dump_skb_packet k_leftover short_skb ch_empty).2) =
      [{ sport := 40000, dport := 80, saddr := 0x0200007f, daddr := 0x0100007f }] := by
  decide

/-! ## The sentinel -/

theorem getD_set_sentinel (w : List Nat) (n i : Nat) (h : n < w.length) :
    (w.set n 0).getD i 0 = if i = n then 0 else w.getD i 0 := by
  simp only [List.getD_eq_getElem?_getD, List.getElem?_set]
  by_cases e : n = i
  · subst e; simp [h]
  · rw [if_neg e, if_neg (fun e' => e e'.symm)]

/-- C16: in an iteration whose 36-byte window first matches CR LF CR LF at window index
`idx`, the scan writes 0 to byte `idx + 2` of the window and changes no other byte of
it; when `idx = 0` nothing is submitted; when `idx ≥ 1` the fragment submitted has length
`idx` and its first `idx` bytes are those of the chunk, except for the sentinel 0 at
position `idx - 2` when `idx ≥ 2`. -/
theorem C16_sentinel (k : Helpers) (skb : __sk_buff) (offset idx : Nat) (st : ScanState)
    (hlen : st.fullbuff.length = 36) (h1 : idx < TASK_CUSTOM_LEN)
    (h2 : is_terminator (load_window k skb offset st) idx = true)
    (h3 : ∀ i < idx, is_terminator (load_window k skb offset st) i = false) :
    scan_chunk TASK_CUSTOM_LEN 0
        { fullbuff := load_window k skb offset st, finished := st.finished,
          len := TASK_CUSTOM_LEN } =
      { fullbuff := (load_window k skb offset st).set (idx + 2) 0, finished := 1, len := idx } ∧
    ((load_window k skb offset st).set (idx + 2) 0).length = 36 ∧
    ((load_window k skb offset st).set (idx + 2) 0).getD (idx + 2) 0 = 0 ∧
    (∀ i, i ≠ idx + 2 → ((load_window k skb offset st).set (idx + 2) 0).getD i 0 =
      (load_window k skb offset st).getD i 0) ∧
    (idx = 0 → (scan_iteration k skb offset st).ch = st.ch) ∧
    (idx ≠ 0 → k.reserve_ok st.ch.attempts = true →
      ∃ c, appended st.ch (scan_iteration k skb offset st).ch =
          [Record.fragment { custom := c } idx] ∧
        c.length = 32 ∧
        (∀ t < idx, t + 2 ≠ idx → c.getD t 0 = (chunk k skb offset st.cnt).getD t 0) ∧
        (2 ≤ idx → c.getD (idx - 2) 0 = 0)) := by
  obtain ⟨_, _, g3⟩ := scan_iteration_found k skb offset idx st h1 h2 h3
  have hw := load_window_length k skb offset st hlen
  have hidx : idx < 32 := h1
  have hset := fun i => getD_set_sentinel (load_window k skb offset st) (idx + 2) i (by omega)
  refine ⟨?_, by rw [List.length_set, hw], by rw [hset, if_pos rfl],
    fun i hi => by rw [hset, if_neg hi], ?_, ?_⟩
  · exact scan_chunk_found _ 0 idx _ (Nat.zero_le _) (by omega) h2 (fun i _ h => h3 i h)
  · intro h0
    rw [g3, if_neg (by simpa using h0)]
  · intro h0 hres
    rw [g3, if_pos h0, ringbuf_submit_payload_ok _ _ _ _ hres]
    have hget := fun t (ht : t < idx) => detecting_fragment_getD (load_window k skb offset st)
      ((List.range TASK_CUSTOM_LEN).map (fun i => k.stale st.ch.attempts i % 256)) idx t hw
      (slot_length k _) hidx ht
    refine ⟨_, appended_eq _ _ _ rfl, by rw [copy_loop_length, slot_length], ?_, ?_⟩
    · intro t ht hne
      rw [hget t ht, if_neg hne, load_window_getD k skb offset st hlen]
    · intro h
      rw [hget _ (by omega), if_pos (by omega)]

set_option maxRecDepth 100000 in
theorem C16_sentinel_witness :
    is_terminator (load_window k_ok (mk_skb 4 get_request) 40 (scan_init ch_empty)) 18 = true ∧
    ((load_window k_ok (mk_skb 4 get_request) 40 (scan_init ch_empty)).set (18 + 2) 0).getD
      (18 + 2) 0 = 0 ∧
    (load_window k_ok (mk_skb 4 get_request) 40 (scan_init ch_empty)).getD (18 + 2) 0 = 13 := by
  have h := C16_sentinel k_ok (mk_skb 4 get_request) 40 18 (scan_init ch_empty) rfl
    (by decide) (by decide) (by decide)
  exact ⟨by decide, h.2.2.1, by decide⟩



/-! ## Iterations whose read fails -/

theorem load_window_of_failed_read (k : Helpers) (skb : __sk_buff) (offset : Nat)
    (st : ScanState)
    (hfail : skb.data.length < offset + st.cnt * TASK_CUSTOM_LEN + TASK_CUSTOM_LEN) :
    load_window k skb offset st = st.fullbuff.take 4 ++
      (List.range TASK_CUSTOM_LEN).map
        (fun i => k.fault (offset + st.cnt * TASK_CUSTOM_LEN) TASK_CUSTOM_LEN i % 256) := by
  unfold load_window bpf_skb_load_bytes
  rw [if_neg (by omega)]

/-- An iteration that does not see the terminator, from any state. -/
theorem scan_iteration_not_found (k : Helpers) (skb : __sk_buff) (offset : Nat)
    (st : ScanState)
    (h : ∀ i < TASK_CUSTOM_LEN, is_terminator (load_window k skb offset st) i = false) :
    (scan_iteration k skb offset st).cnt = st.cnt + 1 ∧
    (scan_iteration k skb offset st).finished = st.finished ∧
    (scan_iteration k skb offset st).ch =
      ringbuf_submit_payload k st.ch ((load_window k skb offset st).drop 4) TASK_CUSTOM_LEN := by
  have hs : ∀ r : ScanResult, r.fullbuff = load_window k skb offset st →
      scan_chunk TASK_CUSTOM_LEN 0 r = r := fun r hr =>
    scan_chunk_none _ _ _ (fun i _ h2 => by rw [hr]; exact h i (by omega))
  unfold scan_iteration
  simp only []
  rw [hs _ rfl]
  refine ⟨?_, ?_, ?_⟩ <;> trivial

/-- C17, as the code has it: the result of a chunk read is never looked at. In an
iteration whose 32-byte read fails, the window scanned is the carry followed by the 32
bytes the failed read leaves in the working buffer. When the terminator is not seen in
it, the iteration submits these 32 bytes as a fragment of length 32, leaves `finished`
alone, and the next iteration runs if there is one; when the terminator is seen, first
at window index `idx`, the iteration sets `finished` and submits `idx` bytes, none when
`idx = 0`. Hence a matched packet with fewer than 320 payload bytes and no terminator
detected still runs ten iterations and makes ten fragment submissions. -/
theorem C17_unchecked_reads (k : Helpers) (skb : __sk_buff) (ch : Channel)
    (hport : bpf_ntohs (skb.remote_port >>> 16) = 80) (hsig : haveHTTP (probe k skb) = 1) :
    (∀ st : ScanState,
      skb.data.length <
        payload_offset k skb + st.cnt * TASK_CUSTOM_LEN + TASK_CUSTOM_LEN →
      load_window k skb (payload_offset k skb) st = st.fullbuff.take 4 ++
        (List.range TASK_CUSTOM_LEN).map (fun i =>
          k.fault (payload_offset k skb + st.cnt * TASK_CUSTOM_LEN) TASK_CUSTOM_LEN i % 256) ∧
      ((∀ i < TASK_CUSTOM_LEN,
          is_terminator (load_window k skb (payload_offset k skb) st) i = false) →
        (scan_iteration k skb (payload_offset k skb) st).ch =
          ringbuf_submit_payload k st.ch
            ((load_window k skb (payload_offset k skb) st).drop 4) TASK_CUSTOM_LEN ∧
        (scan_iteration k skb (payload_offset k skb) st).finished = st.finished ∧
        (scan_iteration k skb (payload_offset k skb) st).cnt = st.cnt + 1 ∧
        (st.finished = 0 → st.cnt < 9 →
          (scan_iteration k skb (payload_offset k skb) st).cnt < 10 ∧
          (scan_iteration k skb (payload_offset k skb) st).finished = 0)) ∧
      (∀ idx < TASK_CUSTOM_LEN,
        is_terminator (load_window k skb (payload_offset k skb) st) idx = true →
        (∀ i < idx, is_terminator (load_window k skb (payload_offset k skb) st) i = false) →
        (scan_iteration k skb (payload_offset k skb) st).finished = 1 ∧
        (scan_iteration k skb (payload_offset k skb) st).ch =
          if idx ≠ 0 then
            ringbuf_submit_payload k st.ch
              (((load_window k skb (payload_offset k skb) st).set (idx + 2) 0).drop 4) idx
          else st.ch)) ∧
    (skb.data.length < payload_offset k skb + 320 → (scan_final k skb ch).finished = 0 →
      (scan_final k skb ch).cnt = 10 ∧
      (dump_skb_packet k skb ch).2.attempts = ch.attempts + 1 + 10 ∧
      ((∀ n, k.reserve_ok n = true) →
        (fragments (appended ch (dump_skb_packet k skb ch).2)).length = 10 ∧
        ∀ c len, (c, len) ∈ fragments (appended ch (dump_skb_packet k skb ch).2) →
          len = 32)) := by
  constructor
  · intro st hfail
    refine ⟨load_window_of_failed_read k skb _ st hfail, ?_, ?_⟩
    · intro h
      obtain ⟨g1, g2, g3⟩ := scan_iteration_not_found k skb _ st h
      exact ⟨g3, g2, g1, fun h0 h9 => ⟨by rw [g1]; omega, by rw [g2]; exact h0⟩⟩
    · intro idx hi ht hfirst
      obtain ⟨_, g2, g3⟩ := scan_iteration_found k skb _ idx st hi ht hfirst
      exact ⟨g2, g3⟩
  · intro _ hfin
    rw [dump_skb_packet_matched k skb ch hport hsig]
    rcases detection_cases k skb (payload_offset k skb) with h | ⟨j, idx, hj, hn, hd⟩
    · obtain ⟨a1, _, a3, a4⟩ := run_exhausted k skb ch h
      refine ⟨a1, a3, ?_⟩
      intro hres
      have hk : k.reserve_ok = fun _ => true := funext hres
      rw [appended_eq _ _ _ a4, hk, kept_all]
      unfold submitted
      rw [if_neg (by simp), List.append_nil]
      have hfr : fragments (Record.tuple (header_event skb) :: (List.range 10).map
          (fun i => Record.fragment { custom := chunk k skb (payload_offset k skb) i } 32)) =
          (List.range 10).map (fun i => (chunk k skb (payload_offset k skb) i, 32)) :=
        fragments_map_fragment _ _ _
      rw [hfr]
      refine ⟨by rw [List.length_map, List.length_range], ?_⟩
      intro c len hm
      rw [List.mem_map] at hm
      obtain ⟨i, _, e⟩ := hm
      exact (Prod.mk.inj e).2.symm
    · obtain ⟨_, a2, _, _⟩ := run_detected k skb ch j idx hj hn hd
      rw [a2] at hfin
      exact absurd hfin (by decide)

set_option maxRecDepth 100000 in
theorem C17_unchecked_reads_witness :
    (mk_skb 4 cut_request).data.length < payload_offset k_ok (mk_skb 4 cut_request) + 320 ∧
    (bpf_skb_load_bytes k_ok (mk_skb 4 cut_request) (40 + 1 * 32) 32).1 = false ∧
    (scan_final k_ok (mk_skb 4 cut_request) ch_empty).cnt = 10 ∧
    (fragments (appended ch_empty
      (dump_skb_packet k_ok (mk_skb 4 cut_request) ch_empty).2)).length = 10 := by
  have h := (C17_unchecked_reads k_ok (mk_skb 4 cut_request) ch_empty (by decide)
    (by decide)).2 (by decide) (by decide)
  exact ⟨by decide, by decide, h.1, (h.2.2 (fun _ => rfl)).1⟩

set_option maxRecDepth 100000 in
/-- C17 as stated fails when the window of the iteration whose read fails holds the
terminator: the payload is 32 bytes and ends with CR LF CR LF; the read of iteration 1
fails, its window starts with the terminator in the carry, the iteration submits nothing
and the loop stops after it although `1 < 9`. One fragment is emitted in all. -/
theorem C17_counterexample :
    bpf_ntohs ((mk_skb 4 aligned_request).remote_port >>> 16) = 80 ∧
    haveHTTP (probe k_ok (mk_skb 4 aligned_request)) = 1 ∧
    (scan_loop k_ok (mk_skb 4 aligned_request) 40 1 (scan_init ch_empty)).cnt = 1 ∧
    (scan_loop k_ok (mk_skb 4 aligned_request) 40 1 (scan_init ch_empty)).finished = 0 ∧
    (bpf_skb_load_bytes k_ok (mk_skb 4 aligned_request) (40 + 1 * 32) 32).1 = false ∧
    is_terminator (load_window k_ok (mk_skb 4 aligned_request) 40
      (scan_loop k_ok (mk_skb 4 aligned_request) 40 1 (scan_init ch_empty))) 0 = true ∧
    (scan_iteration k_ok (mk_skb 4 aligned_request) 40
      (scan_loop k_ok (mk_skb 4 aligned_request) 40 1 (scan_init ch_empty))).ch =
      (scan_loop k_ok (mk_skb 4 aligned_request) 40 1 (scan_init ch_empty)).ch ∧
    (scan_final k_ok (mk_skb 4 aligned_request) ch_empty).cnt = 2 ∧
    (fragments (appended ch_empty
      (dump_skb_packet k_ok (mk_skb 4 aligned_request) ch_empty).2)).length = 1 := by
  decide



/-! ## Where the first terminator is detected -/

/-- With the reads of the iterations that run succeeding, a first terminator at payload
position `p ≤ 315` is detected in iteration `(p + 4) / 32` at window index
`(p + 4) % 32`, and in no iteration before. -/
theorem run_of_first_terminator (k : Helpers) (skb : __sk_buff) (ch : Channel) (p : Nat)
    (hread : payload_offset k skb + 32 * (scan_final k skb ch).cnt ≤ skb.data.length)
    (hp : first_terminator_at (payload k skb) p) (h315 : p ≤ 315) :
    payload_offset k skb + 32 * ((p + 4) / 32 + 1) ≤ skb.data.length ∧
    (∀ i < (p + 4) / 32, no_detection k skb (payload_offset k skb) i) ∧
    detects_at k skb (payload_offset k skb) ((p + 4) / 32) ((p + 4) % 32) := by
  have key : payload_offset k skb + 32 * ((p + 4) / 32 + 1) ≤ skb.data.length := by
    rcases detection_cases k skb (payload_offset k skb) with h | ⟨j, idx, hj, hn, hd⟩
    · obtain ⟨a1, _⟩ := run_exhausted k skb ch h
      rw [a1] at hread
      omega
    · obtain ⟨a1, _⟩ := run_detected k skb ch j idx hj hn hd
      rw [a1] at hread
      by_contra hc
      have hlt : j < (p + 4) / 32 := by omega
      have hidx : idx < 32 := hd.1
      obtain ⟨h4, ht⟩ := (is_terminator_window k skb (payload_offset k skb) j idx hread
        hidx).mp hd.2.1
      exact hp.2 _ (by omega) ht
  exact ⟨key, no_detection_before k skb _ p key hp, detects_at_of_payload k skb _ p key hp⟩

/-- With the reads of the iterations that run succeeding, a first terminator at a
payload position beyond 315 is not detected. -/
theorem run_of_late_terminator (k : Helpers) (skb : __sk_buff) (ch : Channel) (p : Nat)
    (hread : payload_offset k skb + 32 * (scan_final k skb ch).cnt ≤ skb.data.length)
    (hp : first_terminator_at (payload k skb) p) (h315 : 315 < p) :
    ∀ i < 10, no_detection k skb (payload_offset k skb) i := by
  rcases detection_cases k skb (payload_offset k skb) with h | ⟨j, idx, hj, hn, hd⟩
  · exact h
  · obtain ⟨a1, _⟩ := run_detected k skb ch j idx hj hn hd
    rw [a1] at hread
    have hidx : idx < 32 := hd.1
    obtain ⟨h4, ht⟩ := (is_terminator_window k skb (payload_offset k skb) j idx hread
      hidx).mp hd.2.1
    exact absurd ht (hp.2 _ (by omega))

theorem sum_lengths_full (f : Nat → List Nat) (j : Nat) :
    (((List.range j).map (fun i => (f i, 32))).map Prod.snd).sum = 32 * j := by
  induction j with
  | zero => rfl
  | succ j ih =>
    rw [List.range_succ, List.map_append, List.map_append, List.sum_append, ih]
    simp
    omega


/-- C15: for a matched packet with the reads and reservations succeeding, whose first
CR LF CR LF is at payload position `p`: the scanner sets `finished` if and only if
`p ≤ 315`; then no iteration before `(p + 4) / 32` detects, iteration `(p + 4) / 32`
detects at window index `(p + 4) % 32`, the number of fragments emitted is the ceiling of
`(p + 4) / 32`, and their lengths sum to `p + 4`. When `(p + 4) % 32 = 0` the carry of the
detecting iteration is the terminator, the detecting iteration emits no fragment, and
the last fragment is the whole window before it, ending with the terminator. -/
theorem C15_detection_position (k : Helpers) (skb : __sk_buff) (ch : Channel)
    (hport : bpf_ntohs (skb.remote_port >>> 16) = 80) (hsig : haveHTTP (probe k skb) = 1)
    (hres : ∀ n, k.reserve_ok n = true) (p : Nat)
    (hp : first_terminator_at (payload k skb) p)
    (hread : payload_offset k skb + 32 * (scan_final k skb ch).cnt ≤ skb.data.length) :
    ((scan_final k skb ch).finished = 1 ↔ p ≤ 315) ∧
    (p ≤ 315 →
      (∀ i ≤ (p + 4) / 32,
        (scan_loop k skb (payload_offset k skb) i
          (scan_init (ringbuf_submit_header k skb ch))).finished = 0 ∧
        (scan_loop k skb (payload_offset k skb) i
          (scan_init (ringbuf_submit_header k skb ch))).cnt = i) ∧
      scan_chunk TASK_CUSTOM_LEN 0
        { fullbuff := load_window k skb (payload_offset k skb)
            (scan_loop k skb (payload_offset k skb) ((p + 4) / 32)
              (scan_init (ringbuf_submit_header k skb ch))),
          finished := 0, len := TASK_CUSTOM_LEN } =
        { fullbuff := (load_window k skb (payload_offset k skb)
            (scan_loop k skb (payload_offset k skb) ((p + 4) / 32)
              (scan_init (ringbuf_submit_header k skb ch)))).set ((p + 4) % 32 + 2) 0,
          finished := 1, len := (p + 4) % 32 } ∧
      (scan_final k skb ch).cnt = (p + 4) / 32 + 1 ∧
      (fragments (appended ch (dump_skb_packet k skb ch).2)).length = (p + 4 + 31) / 32 ∧
      ((fragments (appended ch (dump_skb_packet k skb ch).2)).map Prod.snd).sum = p + 4 ∧
      ((p + 4) % 32 = 0 →
        (load_window k skb (payload_offset k skb)
          (scan_loop k skb (payload_offset k skb) ((p + 4) / 32)
            (scan_init (ringbuf_submit_header k skb ch)))).take 4 = [13, 10, 13, 10] ∧
        fragments (appended ch (dump_skb_packet k skb ch).2) =
          (List.range ((p + 4) / 32)).map (fun i => (payload_window (payload k skb) i, 32)) ∧
        (payload_window (payload k skb) ((p + 4) / 32 - 1)).drop 28 = [13, 10, 13, 10])) := by
  have hiff : (scan_final k skb ch).finished = 1 ↔ p ≤ 315 := by
    constructor
    · intro hfin
      by_contra hc
      have hn := run_of_late_terminator k skb ch p hread hp (by omega)
      obtain ⟨_, a2, _⟩ := run_exhausted k skb ch hn
      rw [a2] at hfin
      exact absurd hfin (by decide)
    · intro h315
      obtain ⟨_, hn, hd⟩ := run_of_first_terminator k skb ch p hread hp h315
      exact (run_detected k skb ch _ _ (by omega) hn hd).2.1
  refine ⟨hiff, ?_⟩
  intro h315
  obtain ⟨hr, hn, hd⟩ := run_of_first_terminator k skb ch p hread hp h315
  have hj : (p + 4) / 32 < 10 := by omega
  have hrun := fun i (hi : i ≤ (p + 4) / 32) => scan_loop_no_detection k skb (payload_offset k skb)
    (ringbuf_submit_header k skb ch) i (by omega) (fun t ht => hn t (by omega))
  obtain ⟨s1, _, s3, _⟩ := hrun _ (Nat.le_refl _)
  have hw := load_window_eq k skb (payload_offset k skb) _ _ s1 s3
  have hidx : (p + 4) % 32 < 32 := hd.1
  have hfrag := detected_fragments k skb ch _ _ hport hsig hres hj hn hd
  have hmap : (List.range ((p + 4) / 32)).map
        (fun i => (chunk k skb (payload_offset k skb) i, 32)) =
      (List.range ((p + 4) / 32)).map (fun i => (payload_window (payload k skb) i, 32)) := by
    apply List.map_congr_left
    intro i hi
    rw [List.mem_range] at hi
    rw [chunk_eq_payload_window k skb _ i (by omega)]
    rfl
  refine ⟨fun i hi => ⟨(hrun i hi).2.1, (hrun i hi).1⟩, ?_,
    (run_detected k skb ch _ _ hj hn hd).1, ?_, ?_, ?_⟩
  · rw [hw]
    exact scan_chunk_found _ 0 _ _ (Nat.zero_le _) (by unfold TASK_CUSTOM_LEN; omega)
      hd.2.1 (fun i _ h => hd.2.2 i h)
  · rw [hfrag, List.length_append, List.length_map, List.length_range]
    split_ifs with h0
    · simp only [List.length_singleton]; omega
    · simp only [List.length_nil]; omega
  · rw [hfrag, List.map_append, List.sum_append, sum_lengths_full]
    split_ifs with h0
    · simp only [List.map_cons, List.map_nil, List.sum_cons, List.sum_nil]; omega
    · simp only [List.map_nil, List.sum_nil]; omega
  · intro h0
    have hjpos : 1 ≤ (p + 4) / 32 := by omega
    obtain ⟨t0, t1, t2, t3⟩ := (terminator_at_iff _ _).mp hp.1
    have hc := chunk_eq_payload_window k skb (payload_offset k skb) ((p + 4) / 32 - 1)
      (by omega)
    have hg := fun t (ht : t < 32) =>
      chunk_getD k skb (payload_offset k skb) ((p + 4) / 32 - 1) t (by omega) ht
    have hcarry : carry k skb (payload_offset k skb) ((p + 4) / 32) = [13, 10, 13, 10] := by
      obtain ⟨j', hj'⟩ : ∃ j', (p + 4) / 32 = j' + 1 := ⟨(p + 4) / 32 - 1, by omega⟩
      rw [hj'] at hg ⊢
      simp only [Nat.add_sub_cancel] at hg
      have e0 : 32 * j' + 28 = p := by omega
      have e1 : 32 * j' + 29 = p + 1 := by omega
      have e2 : 32 * j' + 30 = p + 2 := by omega
      have e3 : 32 * j' + 31 = p + 3 := by omega
      show [_, _, _, _] = _
      rw [hg 28 (by omega), hg 29 (by omega), hg 30 (by omega), hg 31 (by omega),
        e0, e1, e2, e3]
      unfold payload at t0 t1 t2 t3
      rw [t0, t1, t2, t3]
    refine ⟨?_, ?_, ?_⟩
    · rw [hw]
      unfold window
      rw [List.take_left' (carry_length _ _ _ _)]
      exact hcarry
    · rw [hfrag, if_neg (by omega), List.append_nil, hmap]
    · unfold payload
      rw [← hc, drop_28 _ (chunk_length _ _ _ _)]
      obtain ⟨j', hj'⟩ : ∃ j', (p + 4) / 32 = j' + 1 := ⟨(p + 4) / 32 - 1, by omega⟩
      rw [hj'] at hcarry ⊢
      exact hcarry

set_option maxRecDepth 100000 in
theorem C15_detection_position_witness :
    first_terminator_at (payload k_ok (mk_skb 4 carried_request)) 28 ∧
    (scan_final k_ok (mk_skb 4 carried_request) ch_empty).finished = 1 ∧
    (scan_final k_ok (mk_skb 4 carried_request) ch_empty).cnt = (28 + 4) / 32 + 1 ∧
    (fragments (appended ch_empty
      (dump_skb_packet k_ok (mk_skb 4 carried_request) ch_empty).2)).length
        = (28 + 4 + 31) / 32 := by
  have hf : first_terminator_at (payload k_ok (mk_skb 4 carried_request)) 28 := by
    unfold first_terminator_at; decide
  have h := C15_detection_position k_ok (mk_skb 4 carried_request) ch_empty (by decide)
    (by decide) (fun _ => rfl) 28 hf (by decide)
  exact ⟨hf, h.1.mpr (by decide), (h.2 (by decide)).2.2.1, (h.2 (by decide)).2.2.2.1⟩



/-! ## The call reads the first 400 bytes of the packet only -/

theorem payload_offset_bounds (k : Helpers) (skb : __sk_buff) :
    20 ≤ payload_offset k skb ∧ payload_offset k skb ≤ 80 := by
  have a : ∀ y : Nat, y &&& 15 = y % 16 := fun y => Nat.and_pow_two_sub_one_eq_mod y 4
  unfold payload_offset IP_HLEN
  simp only [a]
  omega

theorem load_bytes_of_agreement (k1 k2 : Helpers) (skb1 skb2 : __sk_buff) (offset len : Nat)
    (h1 : 400 ≤ skb1.data.length) (h2 : 400 ≤ skb2.data.length)
    (hd : skb1.data.take 400 = skb2.data.take 400) (hb : offset + len ≤ 400) :
    bpf_skb_load_bytes k1 skb1 offset len = bpf_skb_load_bytes k2 skb2 offset len := by
  have e : ∀ l : List Nat, (l.drop offset).take len = ((l.take 400).take (offset + len)).drop offset :=
    fun l => by rw [List.take_take, Nat.min_eq_left hb, List.take_drop]
  unfold bpf_skb_load_bytes
  rw [if_pos (by omega), if_pos (by omega), e skb1.data, e skb2.data, hd]

theorem payload_offset_of_agreement (k1 k2 : Helpers) (skb1 skb2 : __sk_buff)
    (h1 : 400 ≤ skb1.data.length) (h2 : 400 ≤ skb2.data.length)
    (hd : skb1.data.take 400 = skb2.data.take 400) :
    payload_offset k1 skb1 = payload_offset k2 skb2 := by
  unfold payload_offset IP_HLEN
  simp only [load_bytes_of_agreement k1 k2 skb1 skb2 (20 + 12) 1 h1 h2 hd (by omega)]

theorem probe_of_agreement (k1 k2 : Helpers) (skb1 skb2 : __sk_buff)
    (h1 : 400 ≤ skb1.data.length) (h2 : 400 ≤ skb2.data.length)
    (hd : skb1.data.take 400 = skb2.data.take 400) :
    probe k1 skb1 = probe k2 skb2 := by
  unfold probe
  rw [payload_offset_of_agreement k1 k2 skb1 skb2 h1 h2 hd,
    load_bytes_of_agreement k1 k2 skb1 skb2 _ 7 h1 h2 hd
      (by have := payload_offset_bounds k2 skb2; omega)]

theorem chunk_of_agreement (k1 k2 : Helpers) (skb1 skb2 : __sk_buff) (offset j : Nat)
    (h1 : 400 ≤ skb1.data.length) (h2 : 400 ≤ skb2.data.length)
    (hd : skb1.data.take 400 = skb2.data.take 400) (ho : offset ≤ 80) (hj : j < 10) :
    chunk k1 skb1 offset j = chunk k2 skb2 offset j := by
  unfold chunk TASK_CUSTOM_LEN
  rw [load_bytes_of_agreement k1 k2 skb1 skb2 _ 32 h1 h2 hd (by omega)]

theorem window_of_agreement (k1 k2 : Helpers) (skb1 skb2 : __sk_buff) (offset j : Nat)
    (h1 : 400 ≤ skb1.data.length) (h2 : 400 ≤ skb2.data.length)
    (hd : skb1.data.take 400 = skb2.data.take 400) (ho : offset ≤ 80) (hj : j < 10) :
    window k1 skb1 offset j = window k2 skb2 offset j := by
  unfold window
  rw [chunk_of_agreement k1 k2 skb1 skb2 offset j h1 h2 hd ho hj]
  cases j with
  | zero => rfl
  | succ j =>
    simp only [carry, chunk_of_agreement k1 k2 skb1 skb2 offset j h1 h2 hd ho (by omega)]

theorem header_event_of_agreement (skb1 skb2 : __sk_buff)
    (ht : skb1.pkt_type = skb2.pkt_type) (hla : skb1.local_ip4 = skb2.local_ip4)
    (hlp : skb1.local_port = skb2.local_port) (hra : skb1.remote_ip4 = skb2.remote_ip4)
    (hrp : skb1.remote_port = skb2.remote_port) :
    header_event skb1 = header_event skb2 := by
  unfold header_event
  rw [ht, hla, hlp, hra, hrp]

theorem kept_map (ok : Nat → Bool) (f : Record → Record) (n : Nat) (rs : List Record) :
    (kept ok n rs).map f = kept ok n (rs.map f) := by
  induction rs generalizing n with
  | nil => rfl
  | cons r rs ih =>
    simp only [kept, List.map_append, List.map_cons, ih]
    cases ok n <;> rfl

theorem copy_loop_take (pl slot : List Nat) (len : Nat) (h1 : len ≤ pl.length)
    (h2 : len ≤ slot.length) : (copy_loop pl len 0 slot).take len = pl.take len := by
  apply list_ext_getD
  · rw [List.length_take, List.length_take, copy_loop_length]; omega
  · intro t ht
    rw [List.length_take, copy_loop_length] at ht
    simp only [List.getD_eq_getElem?_getD, List.getElem?_take]
    rw [if_pos (by omega)]
    have := copy_loop_getD pl len 0 slot t
    simp only [List.getD_eq_getElem?_getD] at this
    rw [this, if_pos ⟨Nat.zero_le _, by omega, by omega⟩, if_pos (by omega)]

/-- The records submitted by two runs that see the same chunks and windows are the same
to the consumer; they are the same altogether when the slots handed out hold the same
stale bytes. -/
theorem submitted_of_agreement (k1 k2 : Helpers) (skb1 skb2 : __sk_buff)
    (offset j idx n : Nat) (hidx : idx < 32)
    (hc : ∀ i < j, chunk k1 skb1 offset i = chunk k2 skb2 offset i)
    (hw : idx ≠ 0 → window k1 skb1 offset j = window k2 skb2 offset j) :
    (submitted k1 skb1 offset j idx n).map visible =
      (submitted k2 skb2 offset j idx n).map visible ∧
    (k1.stale = k2.stale →
      submitted k1 skb1 offset j idx n = submitted k2 skb2 offset j idx n) := by
  have hm : (List.range j).map
        (fun i => Record.fragment { custom := chunk k1 skb1 offset i } 32) =
      (List.range j).map (fun i => Record.fragment { custom := chunk k2 skb2 offset i } 32) := by
    apply List.map_congr_left
    intro i hi
    rw [List.mem_range] at hi
    rw [hc i hi]
  unfold submitted
  rw [hm]
  constructor
  · rw [List.map_append, List.map_append]
    congr 1
    by_cases h0 : idx ≠ 0
    · rw [if_pos h0, if_pos h0, hw h0]
      have hl : (((window k2 skb2 offset j).set (idx + 2) 0).drop 4).length = 32 := by
        rw [List.length_drop, List.length_set, window_length]
      simp only [List.map_cons, List.map_nil, visible]
      rw [copy_loop_take _ _ _ (by omega) (by rw [slot_length]; omega),
        copy_loop_take _ _ _ (by omega) (by rw [slot_length]; omega)]
    · rw [if_neg h0, if_neg h0]
  · intro hs
    by_cases h0 : idx ≠ 0
    · rw [if_pos h0, if_pos h0, hw h0, hs]
    · rw [if_neg h0, if_neg h0]


theorem channel_eq (c1 c2 : Channel) (hr : c1.records = c2.records)
    (ha : c1.attempts = c2.attempts) : c1 = c2 := by
  cases c1; cases c2; simp_all

/-- C20: two packet contexts that agree on `pkt_type`, `local_ip4`, `local_port`,
`remote_ip4` and `remote_port`, whose packets hold at least 400 bytes and agree on the
first 400, under the same reservation outcomes, get the same return value, the same
number of reservations and the same records as the consumer reads them (same tuple,
same fragment lengths, same bytes within the lengths); when the slots handed out hold
the same stale bytes, the two calls leave the same channel, byte for byte. What a failed
read would leave behind plays no part. -/
theorem C20_bounded_prefix (k1 k2 : Helpers) (skb1 skb2 : __sk_buff) (ch : Channel)
    (ht : skb1.pkt_type = skb2.pkt_type) (hla : skb1.local_ip4 = skb2.local_ip4)
    (hlp : skb1.local_port = skb2.local_port) (hra : skb1.remote_ip4 = skb2.remote_ip4)
    (hrp : skb1.remote_port = skb2.remote_port)
    (h1 : 400 ≤ skb1.data.length) (h2 : 400 ≤ skb2.data.length)
    (hd : skb1.data.take 400 = skb2.data.take 400)
    (hok : k1.reserve_ok = k2.reserve_ok) :
    (dump_skb_packet k1 skb1 ch).1 = (dump_skb_packet k2 skb2 ch).1 ∧
    (dump_skb_packet k1 skb1 ch).2.attempts = (dump_skb_packet k2 skb2 ch).2.attempts ∧
    (appended ch (dump_skb_packet k1 skb1 ch).2).map visible =
      (appended ch (dump_skb_packet k2 skb2 ch).2).map visible ∧
    (k1.stale = k2.stale → dump_skb_packet k1 skb1 ch = dump_skb_packet k2 skb2 ch) := by
  have ho := payload_offset_of_agreement k1 k2 skb1 skb2 h1 h2 hd
  have hpr := probe_of_agreement k1 k2 skb1 skb2 h1 h2 hd
  have hb := (payload_offset_bounds k1 skb1).2
  have hev := header_event_of_agreement skb1 skb2 ht hla hlp hra hrp
  have hfst : (dump_skb_packet k1 skb1 ch).1 = (dump_skb_packet k2 skb2 ch).1 := by
    rw [dump_skb_packet_fst, dump_skb_packet_fst]
  have hwin := fun j (hj : j < 10) =>
    window_of_agreement k1 k2 skb1 skb2 (payload_offset k1 skb1) j h1 h2 hd hb hj
  have hchunk := fun j (hj : j < 10) =>
    chunk_of_agreement k1 k2 skb1 skb2 (payload_offset k1 skb1) j h1 h2 hd hb hj
  have hnd : ∀ j < 10, no_detection k1 skb1 (payload_offset k1 skb1) j →
      no_detection k2 skb2 (payload_offset k2 skb2) j := fun j hj h => by
    unfold no_detection at h ⊢
    rw [← ho, ← hwin j hj]; exact h
  have hdt : ∀ j < 10, ∀ idx, detects_at k1 skb1 (payload_offset k1 skb1) j idx →
      detects_at k2 skb2 (payload_offset k2 skb2) j idx := fun j hj idx h => by
    unfold detects_at at h ⊢
    rw [← ho, ← hwin j hj]; exact h
  refine ⟨hfst, ?_⟩
  by_cases hm : bpf_ntohs (skb1.remote_port >>> 16) = 80 ∧ haveHTTP (probe k1 skb1) = 1
  · have hm2 : bpf_ntohs (skb2.remote_port >>> 16) = 80 ∧ haveHTTP (probe k2 skb2) = 1 := by
      rw [← hrp, ← hpr]; exact hm
    have e1 := dump_skb_packet_matched k1 skb1 ch hm.1 hm.2
    have e2 := dump_skb_packet_matched k2 skb2 ch hm2.1 hm2.2
    have main : ∀ j idx n, j ≤ 10 → idx < 32 → (idx ≠ 0 → j < 10) →
        (scan_final k1 skb1 ch).ch.attempts = (scan_final k2 skb2 ch).ch.attempts →
        (scan_final k1 skb1 ch).ch.records = ch.records ++ kept k1.reserve_ok ch.attempts
          (Record.tuple (header_event skb1) :: submitted k1 skb1 (payload_offset k1 skb1) j idx n) →
        (scan_final k2 skb2 ch).ch.records = ch.records ++ kept k2.reserve_ok ch.attempts
          (Record.tuple (header_event skb2) :: submitted k2 skb2 (payload_offset k2 skb2) j idx n) →
        (dump_skb_packet k1 skb1 ch).2.attempts = (dump_skb_packet k2 skb2 ch).2.attempts ∧
        (appended ch (dump_skb_packet k1 skb1 ch).2).map visible =
          (appended ch (dump_skb_packet k2 skb2 ch).2).map visible ∧
        (k1.stale = k2.stale → dump_skb_packet k1 skb1 ch = dump_skb_packet k2 skb2 ch) := by
      intro j idx n hj hidx hj' hatt r1 r2
      obtain ⟨s1, s2⟩ := submitted_of_agreement k1 k2 skb1 skb2 (payload_offset k1 skb1) j idx n
        hidx (fun i hi => hchunk i (by omega)) (fun h0 => hwin j (hj' h0))
      rw [← ho, ← hok, ← hev] at r2
      refine ⟨by rw [e1, e2]; exact hatt, ?_, ?_⟩
      · rw [e1, e2, appended_eq _ _ _ r1, appended_eq _ _ _ r2, kept_map, kept_map,
          List.map_cons, List.map_cons, s1]
      · intro hs
        apply Prod.ext hfst
        rw [e1, e2]
        apply channel_eq _ _ _ hatt
        rw [r1, r2, s2 hs]
    rcases detection_cases k1 skb1 (payload_offset k1 skb1) with h | ⟨j, idx, hj, hn, hdet⟩
    · obtain ⟨_, _, a3, a4⟩ := run_exhausted k1 skb1 ch h
      obtain ⟨_, _, b3, b4⟩ := run_exhausted k2 skb2 ch (fun i hi => hnd i hi (h i hi))
      exact main 10 0 _ (Nat.le_refl _) (by omega) (fun h0 => absurd rfl h0)
        (by rw [a3, b3]) a4 b4
    · obtain ⟨_, _, a3, a4⟩ := run_detected k1 skb1 ch j idx hj hn hdet
      obtain ⟨_, _, b3, b4⟩ := run_detected k2 skb2 ch j idx hj
        (fun i hi => hnd i (by omega) (hn i hi)) (hdt j hj idx hdet)
      exact main j idx _ (by omega) hdet.1 (fun _ => hj) (by rw [a3, b3]) a4 b4
  · have hm2 : ¬ (bpf_ntohs (skb2.remote_port >>> 16) = 80 ∧ haveHTTP (probe k2 skb2) = 1) := by
      rw [← hrp, ← hpr]; exact hm
    have e1 := dump_skb_packet_unmatched k1 skb1 ch hm
    have e2 := dump_skb_packet_unmatched k2 skb2 ch hm2
    refine ⟨by rw [e1, e2], by rw [e1, e2], fun _ => Prod.ext hfst (by rw [e1, e2])⟩

set_option maxRecDepth 100000 in
theorem C20_bounded_prefix_witness :
    (mk_skb 4 long_request).data.take 400 = (mk_skb 4 long_request_other).data.take 400 ∧
    (mk_skb 4 long_request).data ≠ (mk_skb 4 long_request_other).data ∧
    dump_skb_packet k_ok (mk_skb 4 long_request) ch_empty =
      dump_skb_packet k_ok (mk_skb 4 long_request_other) ch_empty ∧
    (appended ch_empty (dump_skb_packet k_ok (mk_skb 4 long_request) ch_empty).2).map visible =
      (appended ch_empty (dump_skb_packet k_other (mk_skb 4 long_request_other) ch_empty).2).map
        visible := by
  have h := C20_bounded_prefix k_ok k_ok (mk_skb 4 long_request) (mk_skb 4 long_request_other)
    ch_empty rfl rfl rfl rfl rfl (by decide) (by decide) (by decide) rfl
  have h' := C20_bounded_prefix k_ok k_other (mk_skb 4 long_request) (mk_skb 4 long_request_other)
    ch_empty rfl rfl rfl rfl rfl (by decide) (by decide) (by decide) rfl
  exact ⟨by decide, by decide, h.2.2.2 rfl, h'.2.2.1⟩


/-! ## No access of the program is out of bounds -/

theorem scan_chunk_checked_eq (n idx : Nat) (r : ScanResult)
    (h : idx + n ≤ TASK_CUSTOM_LEN) (hl : TASK_CUSTOM_LEN + 3 < r.fullbuff.length) :
    scan_chunk_checked n idx r = some (scan_chunk n idx r) := by
  unfold TASK_CUSTOM_LEN at h hl
  induction n generalizing idx with
  | zero => rfl
  | succ n ih =>
    have hc : is_terminator_checked r.fullbuff idx = some (is_terminator r.fullbuff idx) := by
      unfold is_terminator_checked TASK_CUSTOM_LEN
      rw [if_pos ⟨by omega, by omega⟩]
    simp only [scan_chunk_checked, scan_chunk, hc]
    cases ht : is_terminator r.fullbuff idx
    · simp only [Bool.false_eq_true, if_false]
      exact ih (idx + 1) (by omega)
    · simp only [if_true]
      rw [if_pos (by omega)]

theorem copy_loop_checked_eq (pl : List Nat) (n i : Nat) (custom : List Nat)
    (h1 : i + n ≤ pl.length) (h2 : i + n ≤ custom.length) :
    copy_loop_checked pl n i custom = some (copy_loop pl n i custom) := by
  induction n generalizing i custom with
  | zero => rfl
  | succ n ih =>
    simp only [copy_loop_checked, copy_loop]
    rw [if_pos ⟨by omega, by omega⟩]
    exact ih (i + 1) _ (by omega) (by rw [List.length_set]; omega)

theorem ringbuf_submit_payload_checked_eq (k : Helpers) (ch : Channel) (pl : List Nat)
    (len : Nat) (h1 : 1 ≤ len) (h2 : len ≤ 32) (h3 : len ≤ pl.length) :
    ringbuf_submit_payload_checked k ch pl len = some (ringbuf_submit_payload k ch pl len) := by
  unfold ringbuf_submit_payload_checked ringbuf_submit_payload bpf_ringbuf_reserve
  rw [if_pos ⟨h1, h2⟩]
  cases k.reserve_ok ch.attempts
  · rfl
  · simp only [if_true]
    rw [copy_loop_checked_eq _ _ _ _ (by omega) (by rw [slot_length]; omega)]

/-- What the inner loop returns on a 36-byte window. -/
theorem scan_chunk_cases (w : List Nat) (fin : Nat) (hw : w.length = 36) :
    (scan_chunk TASK_CUSTOM_LEN 0 { fullbuff := w, finished := fin, len := TASK_CUSTOM_LEN }).len
      ≤ 32 ∧
    (scan_chunk TASK_CUSTOM_LEN 0
      { fullbuff := w, finished := fin, len := TASK_CUSTOM_LEN }).fullbuff.length = 36 := by
  by_cases h : ∃ idx, idx < TASK_CUSTOM_LEN ∧ is_terminator w idx = true
  · obtain ⟨idx, ⟨h1, h2⟩, hmin⟩ := exists_least _ h
    rw [scan_chunk_found TASK_CUSTOM_LEN 0 idx _ (Nat.zero_le _) (by omega) h2
      (fun i _ hi => eq_false_of_ne_true (fun hc => hmin i hi ⟨lt_trans hi h1, hc⟩))]
    unfold TASK_CUSTOM_LEN at h1
    exact ⟨by show idx ≤ 32; omega, by show (w.set (idx + 2) 0).length = 36; rw [List.length_set, hw]⟩
  · rw [scan_chunk_none _ _ _ (fun i _ hi => eq_false_of_ne_true
      (fun hc => h ⟨i, by omega, hc⟩))]
    exact ⟨Nat.le_refl _, hw⟩

theorem scan_iteration_length (k : Helpers) (skb : __sk_buff) (offset : Nat) (st : ScanState)
    (hlen : st.fullbuff.length = 36) :
    (scan_iteration k skb offset st).fullbuff.length = 36 := by
  unfold scan_iteration
  simp only [List.length_set]
  exact (scan_chunk_cases _ _ (load_window_length k skb offset st hlen)).2

theorem scan_iteration_checked_eq (k : Helpers) (skb : __sk_buff) (offset : Nat)
    (st : ScanState) (hlen : st.fullbuff.length = 36) (ho1 : 20 ≤ offset) (ho2 : offset ≤ 80)
    (hc : st.cnt < 10) :
    scan_iteration_checked k skb offset st = some (scan_iteration k skb offset st) := by
  obtain ⟨c1, c2⟩ := scan_chunk_cases (load_window k skb offset st) st.finished
    (load_window_length k skb offset st hlen)
  unfold scan_iteration_checked scan_iteration
  rw [if_pos ⟨by unfold TASK_CUSTOM_LEN; omega, by unfold TASK_CUSTOM_LEN; omega,
    by rw [hlen]; decide⟩]
  simp only []
  rw [scan_chunk_checked_eq _ _ _ (by omega)
    (by rw [load_window_length k skb offset st hlen]; decide)]
  simp only []
  generalize scan_chunk TASK_CUSTOM_LEN 0
    ⟨load_window k skb offset st, st.finished, TASK_CUSTOM_LEN⟩ = r at c1 c2 ⊢
  have hd : (r.fullbuff.drop 4).length = 32 := by
    rw [List.length_drop, c2]
  by_cases h0 : r.len ≠ 0
  · rw [if_pos h0, if_pos h0,
      ringbuf_submit_payload_checked_eq _ _ _ _ (by omega) c1 (by rw [hd]; exact c1)]
    simp only []
    rw [if_pos ⟨by rw [hd]; decide, by rw [c2]; decide⟩]
  · rw [if_neg h0, if_neg h0]
    simp only []
    rw [if_pos ⟨by rw [hd]; decide, by rw [c2]; decide⟩]

theorem scan_iteration_cnt (k : Helpers) (skb : __sk_buff) (offset : Nat) (st : ScanState) :
    (scan_iteration k skb offset st).cnt = st.cnt + 1 := rfl

theorem scan_loop_checked_eq (k : Helpers) (skb : __sk_buff) (offset n : Nat)
    (st : ScanState) (hlen : st.fullbuff.length = 36) (ho1 : 20 ≤ offset) (ho2 : offset ≤ 80) :
    scan_loop_checked k skb offset n st = some (scan_loop k skb offset n st) := by
  induction n generalizing st with
  | zero => rfl
  | succ n ih =>
    by_cases h : st.cnt < 10 ∧ st.finished = 0
    · simp only [scan_loop_checked, scan_loop, if_pos h]
      rw [scan_iteration_checked_eq k skb offset st hlen ho1 ho2 h.1]
      exact ih _ (scan_iteration_length k skb offset st hlen)
    · simp only [scan_loop_checked, scan_loop, if_neg h]

theorem load_bytes_length (k : Helpers) (skb : __sk_buff) (offset len : Nat) :
    (bpf_skb_load_bytes k skb offset len).2.length = len := by
  unfold bpf_skb_load_bytes
  split_ifs with h
  · simp only [List.length_map, List.length_take, List.length_drop]; omega
  · simp

/-- C18: every array access of one call of `dump_skb_packet` is in bounds, for every
input: the program that checks, before each step, that the terminator test reads
`fullbuff[idx .. idx + 3]` with `idx < 32` inside the window, that the sentinel write at
`idx + 2` is inside the window, that `ringbuf_submit_payload` is called with a length
between 1 and 32 and that its copy loop stays inside the 32-byte chunk and the 32-byte
record, that the carry store stays inside the buffer, and that every chunk read is at an
offset between 20 and 368, never fails and returns what `dump_skb_packet` returns. The
`fullbuff` scanned has 36 bytes, and the payload offset `20 + 4 * nibble` is between 20
and 80, so that `offset + 32 * cnt` is between 20 and 368 for `cnt < 10`, below `2^16`. -/
theorem C18_in_bounds (k : Helpers) (skb : __sk_buff) (ch : Channel) :
    dump_skb_packet_checked k skb ch = some (dump_skb_packet k skb ch) ∧
    (∀ n, (scan_loop k skb (payload_offset k skb) n
      (scan_init (ringbuf_submit_header k skb ch))).fullbuff.length = 36) ∧
    payload_offset k skb =
      20 + 4 * (((bpf_skb_load_bytes k skb 32 1).2.getD 0 0 >>> 4) &&& 0x0f) ∧
    20 ≤ payload_offset k skb ∧ payload_offset k skb ≤ 80 ∧
    (∀ cnt < 10, 20 ≤ payload_offset k skb + 32 * cnt ∧
      payload_offset k skb + 32 * cnt ≤ 368 ∧ payload_offset k skb + 32 * cnt < 65536) := by
  obtain ⟨b1, b2⟩ := payload_offset_bounds k skb
  have a : ∀ y : Nat, y &&& 15 = y % 16 := fun y => Nat.and_pow_two_sub_one_eq_mod y 4
  have hlen : ∀ n st, st.fullbuff.length = 36 →
      (scan_loop k skb (payload_offset k skb) n st).fullbuff.length = 36 := by
    intro n
    induction n with
    | zero => intro st h; exact h
    | succ n ih =>
      intro st h
      by_cases hc : st.cnt < 10 ∧ st.finished = 0
      · simp only [scan_loop, if_pos hc]
        exact ih _ (scan_iteration_length k skb _ st h)
      · simp only [scan_loop, if_neg hc]; exact h
  refine ⟨?_, fun n => hlen n _ rfl, ?_, b1, b2, fun cnt hc => ⟨by omega, by omega, by omega⟩⟩
  · unfold dump_skb_packet_checked dump_skb_packet
    by_cases hp : normalized_port skb ≠ 80
    · rw [if_pos hp, if_pos hp]
    · rw [if_neg hp, if_neg hp]
      simp only []
      rw [if_pos ⟨load_bytes_length k skb _ 1, by unfold IP_HLEN; simp only [a]; omega,
        by unfold probe; rw [load_bytes_length]; omega,
        by unfold probe; rw [load_bytes_length]⟩]
      by_cases hh : haveHTTP (probe k skb) ≠ 1
      · rw [if_pos hh, if_pos hh]
      · rw [if_neg hh, if_neg hh]
        unfold scan_final
        rw [scan_loop_checked_eq k skb _ 10 (scan_init (ringbuf_submit_header k skb ch)) rfl b1 b2]
  · unfold payload_offset IP_HLEN
    simp only [a, Nat.reduceAdd]
    omega


/-- The checks are not idle: on a window of 34 bytes the fourth read of the test at
index 31 is out of bounds, and the checked inner loop fails. -/
theorem scan_chunk_checked_fails :
    scan_chunk_checked TASK_CUSTOM_LEN 0
      { fullbuff := List.replicate 34 0, finished := 0, len := TASK_CUSTOM_LEN } = none := by
  decide

end CgroupSkb
